import Mathlib

/-!
Verification development for the ResumeCraft PDF layout engine
(src/client/src/lib/pdf-generator.ts, the trace-based generator with
`needSpace` / `writeParagraph` / `groupSkillsCaseInsensitive` /
`generatePDF`).

The TypeScript code is shallowly embedded: page coordinates become exact
rationals (the source works in millimetres), the mutable cursor and the
jsPDF drawing side effects become explicit state passing over a list of
drawing events, and the host primitives the code calls but does not define
(jsPDF text measurement / `splitTextToSize`, `String.prototype.normalize`,
`toLowerCase`, `toLocaleDateString`, image fetching) are parameters of the
embedding, so every theorem quantifies over their behaviour.
-/

namespace ResumeCraft

/-! ### Data model (src/shared/schema.ts)

Optional string fields of the schema are modelled as `String`, with the
empty string standing for an absent value: the generator only ever tests
these fields for JavaScript truthiness, and for strings falsy = `""`. -/

structure PersonalDetails where
  firstName : String
  lastName : String
  email : String
  phone : String
  location : String
  summary : String
  linkedIn : String
  github : String
  portfolio : String
  photoUrl : String
deriving Repr, DecidableEq, Inhabited

structure ExperienceItem where
  id : String
  jobTitle : String
  company : String
  location : String
  startDate : String
  endDate : String
  current : Bool
  description : String
deriving Repr, DecidableEq, Inhabited

structure EducationItem where
  id : String
  degree : String
  institution : String
  location : String
  startDate : String
  endDate : String
  gpa : String
  description : String
deriving Repr, DecidableEq, Inhabited

structure SkillItem where
  id : String
  name : String
  level : String
  category : String
deriving Repr, DecidableEq, Inhabited

structure ProjectItem where
  id : String
  name : String
  description : String
  technologies : List String
  url : String
  startDate : String
  endDate : String
deriving Repr, DecidableEq, Inhabited

structure LanguageItem where
  id : String
  name : String
  proficiency : String
deriving Repr, DecidableEq, Inhabited

structure CertificateItem where
  id : String
  name : String
  issuer : String
  dateIssued : String
  expiryDate : String
  credentialUrl : String
deriving Repr, DecidableEq, Inhabited

/-- Input record of `generatePDF` (the `ResumeData` interface).  The
`filename` field is optional in the source (`filename?: string`). -/
structure ResumeData where
  personalDetails : PersonalDetails
  experience : List ExperienceItem
  education : List EducationItem
  skills : List SkillItem
  projects : List ProjectItem
  languages : List LanguageItem
  certificates : List CertificateItem
  filename : Option String
deriving Repr, DecidableEq, Inhabited

/-! ### JavaScript string primitives

The generator uses `replace(/\s+/g, …)`, `trim()`, and regex tests.  The
`\s` character class of JavaScript regular expressions (and the character
set of `String.prototype.trim`) is the concrete set below. -/

/-- Membership in the JavaScript regex `\s` class (WhiteSpace ∪
LineTerminator code points), by code point. -/
def jsWhitespaceChar (c : Char) : Bool :=
  decide (c.toNat = 32) || decide (c.toNat = 9) || decide (c.toNat = 10) ||
  decide (c.toNat = 11) || decide (c.toNat = 12) || decide (c.toNat = 13) ||
  decide (c.toNat = 0xa0) || decide (c.toNat = 0x1680) ||
  (decide (0x2000 ≤ c.toNat) && decide (c.toNat ≤ 0x200a)) ||
  decide (c.toNat = 0x2028) || decide (c.toNat = 0x2029) ||
  decide (c.toNat = 0x202f) || decide (c.toNat = 0x205f) ||
  decide (c.toNat = 0x3000) || decide (c.toNat = 0xfeff)

/-- Model of `String.prototype.trim` (strip leading and trailing
JavaScript whitespace). -/
def jsTrim (s : String) : String :=
  String.mk (((s.data.dropWhile jsWhitespaceChar).reverse.dropWhile
    jsWhitespaceChar).reverse)

/-- Model of `s.replace(/\s+/g, "")`: every whitespace character is
removed (replacing each run by the empty string deletes exactly the
whitespace characters). -/
def stripWs (s : String) : String :=
  String.mk (s.data.filter (fun c => !jsWhitespaceChar c))

/-- Model of `s.replace(/\s+/g, rep)`: each maximal whitespace run is
replaced by `rep`; the flag records whether the previous character was
part of a whitespace run. -/
def replaceWsRunsAux (rep : String) : List Char → Bool → String
  | [], _ => ""
  | c :: cs, inRun =>
    if jsWhitespaceChar c then
      (if inRun then "" else rep) ++ replaceWsRunsAux rep cs true
    else String.singleton c ++ replaceWsRunsAux rep cs false

def replaceWsRuns (rep : String) (s : String) : String :=
  replaceWsRunsAux rep s.data false

/-- Model of `s.replace(/\s+/g, " ").trim()`, exactly as the source
composes it. -/
def collapseTrim (s : String) : String :=
  jsTrim (replaceWsRuns " " s)

/-- One character of the regex class `[A-Z]` (code points 65-90). -/
def upChar (c : Char) : Bool :=
  decide (65 ≤ c.toNat) && decide (c.toNat ≤ 90)

/-- Model of the regex test `/[A-Z]/.test s` (the `hasUppercase` helper of
the source: ASCII uppercase only). -/
def hasUppercase (s : String) : Bool :=
  s.data.any upChar

/-- ASCII lower-casing of one character, as performed by a
case-insensitive JavaScript regex over an ASCII pattern. -/
def asciiLowerChar (c : Char) : Char :=
  if 65 ≤ c.toNat ∧ c.toNat ≤ 90 then Char.ofNat (c.toNat + 32) else c

def asciiLower (s : String) : String := String.mk (s.data.map asciiLowerChar)

/-- Model of `String.prototype.startsWith` over the character lists. -/
def strStartsWith (s p : String) : Bool := p.data.isPrefixOf s.data

/-! ### URL normalization (pdf-generator.ts, normalizeUrl and drawLink) -/

/-- Translation of `normalizeUrl`: empty stays empty, a string matching
`/^https?:\/\//i` is returned unchanged, anything else gets an
`https://` placed in front.  The case-insensitive regex over the ASCII
pattern is modelled by ASCII-lower-casing the candidate before the
starts-with tests. -/
def normalizeUrl (u : String) : String :=
  if u = "" then ""
  else if strStartsWith (asciiLower u) "http://" ||
          strStartsWith (asciiLower u) "https://" then u
  else "https://" ++ u

/-- URL actually attached by `drawLink`: strings starting with the exact
lowercase `mailto:` or `tel:` bypass `normalizeUrl`, everything else goes
through it. -/
def drawLinkUrl (url : String) : String :=
  if strStartsWith url "mailto:" || strStartsWith url "tel:" then url
  else normalizeUrl url

/-! ### Skill category grouping (pdf-generator.ts lines 605-634)

The `nfkc` and `lower` parameters stand for the host string functions
`String.prototype.normalize("NFKC")` and `String.prototype.toLowerCase`,
which the source calls but does not define. -/

/-- Translation of `normalizeCategoryKey`. -/
def normalizeCategoryKey (nfkc lower : String → String) (raw : String) :
    String :=
  lower (collapseTrim (nfkc raw))

/-- The `original` computed for a skill inside
`groupSkillsCaseInsensitive`: NFKC-normalized, whitespace-collapsed,
trimmed category string. -/
def categoryOriginal (nfkc : String → String) (s : SkillItem) : String :=
  collapseTrim (nfkc s.category)

/-- The grouping key of a skill: `normalizeCategoryKey` applied to its
`original`. -/
def categoryKey (nfkc lower : String → String) (s : SkillItem) : String :=
  normalizeCategoryKey nfkc lower (categoryOriginal nfkc s)

structure CatBucket where
  label : String
  items : List SkillItem
deriving Repr, DecidableEq, Inhabited

/-- One step of the grouping loop.  A JavaScript `Map` keyed by strings is
an insertion-ordered association list: `map.get` hits the existing entry
(whose bucket is mutated in place, keeping its position), `map.set` of a
fresh key appends at the end. -/
def insertSkill (key orig : String) (s : SkillItem) :
    List (String × CatBucket) → List (String × CatBucket)
  | [] => [(key, ⟨if orig = "" then "Category" else orig, [s]⟩)]
  | (k, b) :: rest =>
    if k = key then
      (k, ⟨if !hasUppercase b.label && hasUppercase orig then orig
           else b.label,
           b.items ++ [s]⟩) :: rest
    else (k, b) :: insertSkill key orig s rest

/-- Translation of `groupSkillsCaseInsensitive`. -/
def groupSkillsCaseInsensitive (nfkc lower : String → String)
    (skills : List SkillItem) : List CatBucket :=
  (skills.foldl
    (fun m s =>
      insertSkill (categoryKey nfkc lower s) (categoryOriginal nfkc s) s m)
    []).map Prod.snd

/-- First-seen deduplication of a list of keys: the order in which
distinct keys first appear. -/
def dedupFirstSeen (l : List String) : List String :=
  l.foldl (fun acc k => if k ∈ acc then acc else acc ++ [k]) []

/-! ### Layout constants (pdf-generator.ts lines 409-439) -/

def MARGIN : ℚ := 15
def PAGE_W : ℚ := 210
def PAGE_H : ℚ := 297
def CONTENT_W : ℚ := PAGE_W - MARGIN * 2
def NAME_SIZE : ℚ := 22
def SECTION_TITLE_SIZE : ℚ := 13
def SUBHEADING_SIZE : ℚ := 11
def BODY_SIZE : ℚ := 10
def META_SIZE : ℚ := 9
def GAP_BEFORE_SECTION : ℚ := 6
def INTER_BLOCK_GAP : ℚ := 2
def COMPANY_GAP_BEFORE : ℚ := 3
def COMPANY_GAP_AFTER : ℚ := 3
def INSTITUTION_GAP_BEFORE : ℚ := 3
def INSTITUTION_GAP_AFTER : ℚ := 3
def SKILLS_INLINE_GAP : ℚ := 2
def NEW_CATEGORY_GAP_BEFORE : ℚ := 4
def CATEGORY_GAP_AFTER : ℚ := 5/2
def SKILLS_TAIL_PAD : ℚ := 2
def PROJECT_AFTER_TITLE_GAP : ℚ := 2

/-- Conversion from font points to page millimetres (`mmPerPoint`,
25.4 / 72). -/
def mmPerPoint : ℚ := 254/720

/-- Default jsPDF line-height factor; the generator creates a fresh
document and never changes it, so `doc.getLineHeightFactor()` is 1.15. -/
def lineHeightFactor : ℚ := 23/20

/-- Translation of `lineHeightMM`. -/
def lineHeightMM (fontSize : ℚ) : ℚ := fontSize * lineHeightFactor * mmPerPoint

/-! ### Drawing events and cursor state

jsPDF side effects become an append-only list of events.  A `text`,
`rule`, `link` or `image` event records the position it was placed at;
`pageBreak` records the cursor and the required height at the moment
`doc.addPage()` ran; `save` records the output filename. -/

inductive Align where
  | left
  | center
  | right
deriving Repr, DecidableEq, Inhabited

inductive Ev where
  | text (s : String) (x y size : ℚ) (bold : Bool) (align : Align)
  | rule (x1 y1 x2 y2 : ℚ)
  | link (s : String) (x y : ℚ) (url : String)
  | image (data : String) (x y w h : ℚ)
  | pageBreak (yAt required : ℚ)
  | save (name : String)
deriving Repr, DecidableEq, Inhabited

/-- Cursor state: the current vertical position `y` and the drawing
events emitted so far, in order. -/
structure St where
  y : ℚ
  evs : List Ev
deriving Repr, DecidableEq, Inhabited

def emit (st : St) (e : Ev) : St := { st with evs := st.evs ++ [e] }

/-- Host capabilities the generator calls but does not define: jsPDF text
wrapping (`splitTextToSize`, given the active font size and boldness and a
maximum width), jsPDF `getTextWidth`, the JavaScript string functions
`normalize("NFKC")` and `toLowerCase`, locale date formatting, and the
photo fetch (`fetch` + `FileReader`, which either yields a data URL or
throws). -/
structure Host where
  split : ℚ → Bool → String → ℚ → List String
  width : ℚ → Bool → String → ℚ
  nfkc : String → String
  lower : String → String
  fmtDate : String → String
  fetchImage : String → Except Unit String

/-- Translation of `imageUrlToDataUrl` (fetch + decode, a host effect). -/
def imageUrlToDataUrl (h : Host) (url : String) : Except Unit String :=
  h.fetchImage url

/-- Translation of `formatDate`: empty date strings render empty,
otherwise the locale formats them. -/
def formatDate (h : Host) (dateString : String) : String :=
  if dateString = "" then "" else h.fmtDate dateString

/-- Translation of `needSpace`: page-break (and cursor reset to the top
margin) exactly when the required height does not fit above the bottom
margin. -/
def needSpace (st : St) (required : ℚ) : St :=
  if st.y + required > PAGE_H - MARGIN then
    { y := MARGIN, evs := st.evs ++ [Ev.pageBreak st.y required] }
  else st

/-- Translation of `addTopSpacing`. -/
def addTopSpacing (st : St) (gap : ℚ) : St :=
  let st1 := needSpace st gap
  { st1 with y := st1.y + gap }

/-- Translation of `sectionHeader` (bold uppercase title plus accent rule
2mm below the baseline). -/
def sectionHeader (title : String) (st : St) : St :=
  let lh := lineHeightMM SECTION_TITLE_SIZE
  let st := needSpace st (lh + 6)
  let st := emit st (Ev.text title.toUpper MARGIN st.y SECTION_TITLE_SIZE true Align.left)
  let st := emit st (Ev.rule MARGIN (st.y + 2) (PAGE_W - MARGIN) (st.y + 2))
  { st with y := st.y + lh + 2 }

/-- Body of the per-line loop of `writeParagraph`. -/
def paragraphLine (fontSize lh : ℚ) (st : St) (line : String) : St :=
  let st := needSpace st lh
  let st := emit st (Ev.text line MARGIN st.y fontSize false Align.left)
  { st with y := st.y + lh }

/-- Translation of `writeParagraph`. -/
def writeParagraph (h : Host) (txt : String) (fontSize maxWidth : ℚ)
    (st : St) : St :=
  let lh := lineHeightMM fontSize
  (h.split fontSize false txt maxWidth).foldl (paragraphLine fontSize lh) st

/-- Continuation lines (index > 0) of one bullet in `writeBullets`. -/
def bulletWrapLine (fontSize indent lh : ℚ) (st : St) (w : String) : St :=
  let st := needSpace st lh
  let st := emit st (Ev.text w (MARGIN + indent) st.y fontSize false Align.left)
  { st with y := st.y + lh }

/-- One bullet of `writeBullets`: the bullet glyph at the margin, the
first wrapped line on the same baseline, continuation lines each guarded
by `needSpace`, then a fixed 1.5mm gap. -/
def bulletItem (h : Host) (fontSize indent : ℚ) (bullet : String)
    (st : St) (raw : String) : St :=
  let lh := lineHeightMM fontSize
  let wrapped := h.split fontSize false raw (CONTENT_W - indent)
  let st := needSpace st lh
  let st := emit st (Ev.text bullet MARGIN st.y fontSize false Align.left)
  let st :=
    match wrapped with
    | [] => st
    | w0 :: ws =>
      let st := emit st (Ev.text w0 (MARGIN + indent) st.y fontSize false Align.left)
      let st := { st with y := st.y + lh }
      ws.foldl (bulletWrapLine fontSize indent lh) st
  { st with y := st.y + 3/2 }

/-- Translation of `writeBullets`. -/
def writeBullets (h : Host) (bullets : List String) (fontSize indent : ℚ)
    (bullet : String) (st : St) : St :=
  bullets.foldl (bulletItem h fontSize indent bullet) st

/-- Translation of `drawLink`.  The source has two branches — the
`textWithLink` API when jsPDF provides it, otherwise `doc.text` plus an
overlaid `doc.link` rectangle at the same position and width — and both
place the same clickable text region with the same activation URL, which
is modelled as a single `link` event. -/
def drawLink (st : St) (txt : String) (x : ℚ) (url : String) : St :=
  emit st (Ev.link txt x st.y (drawLinkUrl url))

/-- Entries of `drawInlineCentered` (the `{ label, url? }` pairs). -/
structure InlineItem where
  label : String
  url : Option String
deriving Repr, DecidableEq, Inhabited

def inlineSep : String := " • "

/-- Total rendered width of the inline run: each label plus a separator
width for every entry except the last. -/
def inlineTotalW (h : Host) (fontSize : ℚ) (items : List InlineItem) : ℚ :=
  ((items.enum).map (fun p =>
    h.width fontSize false p.2.label +
      (if p.1 < items.length - 1 then h.width fontSize false inlineSep else 0))).sum

/-- Draw one inline entry: a clickable link when a (truthy) url is
attached, plain text otherwise. -/
def inlineItemDraw (h : Host) (fontSize : ℚ) (st : St) (x : ℚ)
    (it : InlineItem) : St :=
  match it.url with
  | some u =>
    if u ≠ "" then drawLink st it.label x u
    else emit st (Ev.text it.label x st.y fontSize false Align.left)
  | none => emit st (Ev.text it.label x st.y fontSize false Align.left)

/-- The left-to-right loop of `drawInlineCentered`: draw each entry, then
a separator after every entry except the last, advancing `x` by the
measured widths. -/
def inlineLoop (h : Host) (fontSize : ℚ) :
    List InlineItem → ℚ → St → St
  | [], _, st => st
  | [it], x, st => inlineItemDraw h fontSize st x it
  | it :: rest, x, st =>
    let st := inlineItemDraw h fontSize st x it
    let x := x + h.width fontSize false it.label
    let st := emit st (Ev.text inlineSep x st.y fontSize false Align.left)
    inlineLoop h fontSize rest (x + h.width fontSize false inlineSep) st

/-- Translation of `drawInlineCentered`. -/
def drawInlineCentered (h : Host) (items : List InlineItem) (fontSize : ℚ)
    (st : St) : St :=
  inlineLoop h fontSize items ((PAGE_W - inlineTotalW h fontSize items) / 2) st

/-! ### The main generator (pdf-generator.ts lines 637-994) -/

/-- Full name as drawn in the header (falls back to "Your Name"). -/
def fullNameOf (pd : PersonalDetails) : String :=
  let s := jsTrim (pd.firstName ++ " " ++ pd.lastName)
  if s = "" then "Your Name" else s

/-- Full name as used for the output filename (line 990 recomputes it
with the fallback "Your_Name"). -/
def fileFullNameOf (pd : PersonalDetails) : String :=
  let s := jsTrim (pd.firstName ++ " " ++ pd.lastName)
  if s = "" then "Your_Name" else s

def defaultFileName (rd : ResumeData) : String :=
  replaceWsRuns "_" (fileFullNameOf rd.personalDetails) ++ "_Resume.pdf"

/-- The saved filename: `filename || default` (a missing or empty
override is falsy). -/
def fileNameOf (rd : ResumeData) : String :=
  match rd.filename with
  | some f => if f = "" then defaultFileName rd else f
  | none => defaultFileName rd

/-- The contact line entries: email as a mailto link, phone as a tel link
with all whitespace stripped from the number, plain location. -/
def contactItems (pd : PersonalDetails) : List InlineItem :=
  (if pd.email ≠ "" then [⟨pd.email, some ("mailto:" ++ pd.email)⟩] else []) ++
  (if pd.phone ≠ "" then [⟨pd.phone, some ("tel:" ++ stripWs pd.phone)⟩] else []) ++
  (if pd.location ≠ "" then [⟨pd.location, none⟩] else [])

/-- The professional-links line entries. -/
def linkItems (pd : PersonalDetails) : List InlineItem :=
  (if pd.linkedIn ≠ "" then [⟨"LinkedIn", some pd.linkedIn⟩] else []) ++
  (if pd.github ≠ "" then [⟨"GitHub", some pd.github⟩] else []) ++
  (if pd.portfolio ≠ "" then [⟨"Portfolio", some pd.portfolio⟩] else [])

/-- Centered name line of the NAME block. -/
def nameStep (pd : PersonalDetails) (st : St) : St :=
  let lh := lineHeightMM NAME_SIZE
  let st := needSpace st lh
  let st := emit st (Ev.text (fullNameOf pd) (PAGE_W / 2) st.y NAME_SIZE true Align.center)
  { st with y := st.y + lh * (6/10) }

/-- Contact line of the NAME block (skipped when no contact data). -/
def contactsStep (h : Host) (pd : PersonalDetails) (st : St) : St :=
  let contacts := contactItems pd
  if contacts ≠ [] then
    let clh := lineHeightMM META_SIZE
    let st := needSpace st clh
    let st := drawInlineCentered h contacts META_SIZE st
    { st with y := st.y + clh * (9/10) }
  else st

/-- Professional-links line of the NAME block. -/
def linksStep (h : Host) (pd : PersonalDetails) (st : St) : St :=
  let links := linkItems pd
  if links ≠ [] then
    let llh := lineHeightMM META_SIZE
    let st := needSpace st llh
    let st := drawInlineCentered h links META_SIZE st
    { st with y := st.y + llh * (9/10) }
  else st

/-- Optional photo of the NAME block: a 24mm square at the top-right
corner; a failed fetch is swallowed (`catch { /* ignore */ }`) and the
photo skipped. -/
def photoStep (h : Host) (pd : PersonalDetails) (st : St) : St :=
  if pd.photoUrl ≠ "" then
    match imageUrlToDataUrl h pd.photoUrl with
    | Except.ok dataUrl =>
      let sz : ℚ := 24
      let st := emit st (Ev.image dataUrl (PAGE_W - MARGIN - sz) MARGIN sz sz)
      { st with y := max st.y (MARGIN + sz + 2) }
    | Except.error _ => st
  else st

/-- The NAME block of `generatePDF`: centered name, contact line, links
line, and the best-effort photo. -/
def headerBlock (h : Host) (pd : PersonalDetails) (st : St) : St :=
  photoStep h pd (linksStep h pd (contactsStep h pd (nameStep pd st)))

/-- The SUMMARY section. -/
def summarySection (h : Host) (pd : PersonalDetails) (st : St) : St :=
  if pd.summary ≠ "" then
    let st := sectionHeader "Professional Summary" (addTopSpacing st GAP_BEFORE_SECTION)
    let st := writeParagraph h pd.summary BODY_SIZE CONTENT_W st
    { st with y := st.y + INTER_BLOCK_GAP }
  else st

def dateRangeExp (h : Host) (e : ExperienceItem) : String :=
  formatDate h e.startDate ++ " - " ++
    (if e.current then "Present" else formatDate h e.endDate)

/-- Description split on newlines, trimmed, blank entries dropped. -/
def expBullets (e : ExperienceItem) : List String :=
  ((e.description.splitOn "\n").map jsTrim).filter (fun s => s ≠ "")

/-- One EXPERIENCE entry. -/
def expItem (h : Host) (st : St) (e : ExperienceItem) : St :=
  let titleLH := lineHeightMM SUBHEADING_SIZE
  let st := needSpace st (titleLH + 1)
  let st := emit st (Ev.text (if e.jobTitle = "" then "Job Title" else e.jobTitle)
    MARGIN st.y SUBHEADING_SIZE true Align.left)
  let st := emit st (Ev.text (dateRangeExp h e) (PAGE_W - MARGIN) st.y META_SIZE false Align.right)
  let st := { st with y := st.y + titleLH * (19/20) }
  let metaLH := lineHeightMM META_SIZE
  let st := addTopSpacing st COMPANY_GAP_BEFORE
  let st := needSpace st metaLH
  let st := emit st (Ev.text (if e.company = "" then "Company Name" else e.company)
    MARGIN st.y META_SIZE false Align.left)
  let st := if e.location ≠ "" then
      emit st (Ev.text e.location (PAGE_W - MARGIN) st.y META_SIZE false Align.right)
    else st
  let st := { st with y := st.y + metaLH * (9/10) }
  let st := addTopSpacing st COMPANY_GAP_AFTER
  let st := if e.description ≠ "" then writeBullets h (expBullets e) BODY_SIZE 4 "•" st else st
  { st with y := st.y + INTER_BLOCK_GAP }

/-- The EXPERIENCE section. -/
def experienceSection (h : Host) (exps : List ExperienceItem) (st : St) : St :=
  if exps ≠ [] then
    let st := sectionHeader "Professional Experience" (addTopSpacing st GAP_BEFORE_SECTION)
    exps.foldl (expItem h) st
  else st

/-- One EDUCATION entry. -/
def eduItem (h : Host) (st : St) (e : EducationItem) : St :=
  let degLH := lineHeightMM SUBHEADING_SIZE
  let st := needSpace st degLH
  let st := emit st (Ev.text (if e.degree = "" then "Degree" else e.degree)
    MARGIN st.y SUBHEADING_SIZE true Align.left)
  let st := emit st (Ev.text (formatDate h e.startDate ++ " - " ++ formatDate h e.endDate)
    (PAGE_W - MARGIN) st.y META_SIZE false Align.right)
  let st := { st with y := st.y + degLH * (19/20) }
  let instLH := lineHeightMM META_SIZE
  let st := addTopSpacing st INSTITUTION_GAP_BEFORE
  let st := needSpace st instLH
  let st := emit st (Ev.text (if e.institution = "" then "Institution" else e.institution)
    MARGIN st.y META_SIZE false Align.left)
  let st := if e.location ≠ "" then
      emit st (Ev.text e.location (PAGE_W - MARGIN) st.y META_SIZE false Align.right)
    else st
  let st := { st with y := st.y + instLH * (9/10) }
  let st := addTopSpacing st INSTITUTION_GAP_AFTER
  let st := if e.gpa ≠ "" then
      let gpaLH := lineHeightMM BODY_SIZE
      let st := needSpace st gpaLH
      let st := emit st (Ev.text ("GPA: " ++ e.gpa) MARGIN st.y BODY_SIZE false Align.left)
      { st with y := st.y + gpaLH * (9/10) }
    else st
  let st := if e.description ≠ "" then writeParagraph h e.description BODY_SIZE CONTENT_W st else st
  { st with y := st.y + INTER_BLOCK_GAP }

/-- The EDUCATION section. -/
def educationSection (h : Host) (edus : List EducationItem) (st : St) : St :=
  if edus ≠ [] then
    let st := sectionHeader "Education" (addTopSpacing st GAP_BEFORE_SECTION)
    edus.foldl (eduItem h) st
  else st

/-- Wrapped skill lines after the first: advance by one line height
(guarded) and draw at the new baseline, aligned under the value start. -/
def skillLine (lineLH startX : ℚ) (st : St) (line : String) : St :=
  let st := needSpace st lineLH
  let st := { st with y := st.y + lineLH }
  emit st (Ev.text line startX st.y BODY_SIZE false Align.left)

/-- Draw the wrapped skill list of a bucket: the first line on the label
baseline, the rest via `skillLine`.  (Index loop `lines[0]` /
`lines[1..]` of the source.) -/
def skillLinesDraw (startX lineLH : ℚ) (lines : List String) (st : St) : St :=
  match lines with
  | [] => st
  | l0 :: ls =>
    let st := emit st (Ev.text l0 startX st.y BODY_SIZE false Align.left)
    ls.foldl (skillLine lineLH startX) st

/-- One category row of the TECHNICAL SKILLS section.  The pre-measured
page-break check of the source (lines 842-845) inlines exactly the body
of `needSpace` with `blockH` as the required height. -/
def skillBucketBlock (h : Host) (st : St) (first : Bool) (bucket : CatBucket) : St :=
  let displayCat := if bucket.label = "" then "Category" else bucket.label
  let lineLH := lineHeightMM BODY_SIZE
  let labelText := displayCat ++ ":"
  let labelW := h.width BODY_SIZE true labelText
  let startX := MARGIN + labelW + SKILLS_INLINE_GAP
  let wrapWidth := max 10 (PAGE_W - MARGIN - startX)
  let list := String.intercalate ", " (bucket.items.map SkillItem.name)
  let lines := h.split BODY_SIZE false list wrapWidth
  let st := if !first then addTopSpacing st NEW_CATEGORY_GAP_BEFORE else st
  let blockH := max lineLH ((lines.length : ℚ) * lineLH) + CATEGORY_GAP_AFTER
  let st := needSpace st blockH
  let st := needSpace st lineLH
  let st := emit st (Ev.text labelText MARGIN st.y BODY_SIZE true Align.left)
  let st := skillLinesDraw startX lineLH lines st
  { st with y := st.y + CATEGORY_GAP_AFTER }

/-- The TECHNICAL SKILLS section: group, then render each bucket,
tracking the `firstCategory` flag, then the tail pad. -/
def skillsSection (h : Host) (skills : List SkillItem) (st : St) : St :=
  if skills ≠ [] then
    let st := sectionHeader "Technical Skills" (addTopSpacing st GAP_BEFORE_SECTION)
    let buckets := groupSkillsCaseInsensitive h.nfkc h.lower skills
    let p := buckets.foldl
      (fun (p : St × Bool) bucket => (skillBucketBlock h p.1 p.2 bucket, false))
      (st, true)
    addTopSpacing p.1 SKILLS_TAIL_PAD
  else st

/-- Wrapped technology lines of a project. -/
def techLine (st : St) (line : String) : St :=
  let lh := lineHeightMM BODY_SIZE
  let st := needSpace st lh
  let st := emit st (Ev.text line (MARGIN + 30) st.y BODY_SIZE false Align.left)
  { st with y := st.y + lh }

/-- One PROJECTS entry. -/
def projItem (h : Host) (st : St) (p : ProjectItem) : St :=
  let titleLH := lineHeightMM SUBHEADING_SIZE
  let st := needSpace st titleLH
  let st := emit st (Ev.text (if p.name = "" then "Project Name" else p.name)
    MARGIN st.y SUBHEADING_SIZE true Align.left)
  let st := if p.startDate ≠ "" ∨ p.endDate ≠ "" then
      emit st (Ev.text (formatDate h p.startDate ++ " - " ++ formatDate h p.endDate)
        (PAGE_W - MARGIN) st.y META_SIZE false Align.right)
    else st
  let st := { st with y := st.y + titleLH * (19/20) }
  let st := addTopSpacing st PROJECT_AFTER_TITLE_GAP
  let st := if p.url ≠ "" then
      let ulh := lineHeightMM META_SIZE
      let st := needSpace st ulh
      let st := drawLink st p.url MARGIN p.url
      { st with y := st.y + ulh * (9/10) }
    else st
  let st := if p.description ≠ "" then writeParagraph h p.description BODY_SIZE CONTENT_W st else st
  let st := if p.technologies ≠ [] then
      let labLH := lineHeightMM BODY_SIZE
      let st := needSpace st labLH
      let st := emit st (Ev.text "Technologies:" MARGIN st.y BODY_SIZE true Align.left)
      let tech := String.intercalate ", " p.technologies
      (h.split BODY_SIZE false tech (CONTENT_W - 30)).foldl techLine st
    else st
  { st with y := st.y + INTER_BLOCK_GAP }

/-- The PROJECTS section (at most the first four projects). -/
def projectsSection (h : Host) (projects : List ProjectItem) (st : St) : St :=
  if projects ≠ [] then
    let st := sectionHeader "Projects" (addTopSpacing st GAP_BEFORE_SECTION)
    (projects.take 4).foldl (projItem h) st
  else st

/-- One language line of the ADDITIONAL section. -/
def langLine (st : St) (lang : LanguageItem) : St :=
  let lh := lineHeightMM BODY_SIZE
  let st := needSpace st lh
  let st := emit st (Ev.text (lang.name ++ " - " ++ lang.proficiency)
    MARGIN st.y BODY_SIZE false Align.left)
  { st with y := st.y + lh }

def certDisplayName (c : CertificateItem) : String :=
  if c.name = "" then "Certificate" else c.name

/-- Issuer and formatted issue date joined with the separator glyph,
blank parts dropped. -/
def certMeta (h : Host) (c : CertificateItem) : String :=
  String.intercalate " • "
    (([if c.issuer = "" then "Issuer" else c.issuer,
       formatDate h c.dateIssued]).filter (fun s => s ≠ ""))

/-- One certificate entry: bold name line then meta line. -/
def certBlock (h : Host) (st : St) (c : CertificateItem) : St :=
  let nameLH := lineHeightMM BODY_SIZE
  let st := needSpace st nameLH
  let st := emit st (Ev.text (certDisplayName c) MARGIN st.y BODY_SIZE true Align.left)
  let st := { st with y := st.y + nameLH * (8/10) }
  let metaLH := lineHeightMM BODY_SIZE
  let st := needSpace st metaLH
  let st := emit st (Ev.text (certMeta h c) MARGIN st.y BODY_SIZE false Align.left)
  let st := { st with y := st.y + metaLH }
  { st with y := st.y + 12/10 }

/-- Languages sub-block of the ADDITIONAL section. -/
def languagesSub (languages : List LanguageItem) (st : St) : St :=
  if languages ≠ [] then
    let subLH := lineHeightMM SUBHEADING_SIZE
    let st := needSpace st subLH
    let st := emit st (Ev.text "Languages" MARGIN st.y SUBHEADING_SIZE true Align.left)
    let st := { st with y := st.y + subLH * (8/10) }
    let st := languages.foldl langLine st
    { st with y := st.y + INTER_BLOCK_GAP }
  else st

/-- Certifications sub-block of the ADDITIONAL section: the first ten
certificates (`certificates.slice(0, 10)`), each rendered by
`certBlock`. -/
def certificatesSub (h : Host) (certificates : List CertificateItem)
    (st : St) : St :=
  if certificates ≠ [] then
    let subLH := lineHeightMM SUBHEADING_SIZE
    let st := needSpace st subLH
    let st := emit st (Ev.text "Certifications" MARGIN st.y SUBHEADING_SIZE true Align.left)
    let st := { st with y := st.y + subLH * (8/10) }
    (certificates.take 10).foldl (certBlock h) st
  else st

/-- The ADDITIONAL section (languages and certificates, the latter capped
at ten). -/
def additionalSection (h : Host) (languages : List LanguageItem)
    (certificates : List CertificateItem) (st : St) : St :=
  if languages ≠ [] ∨ certificates ≠ [] then
    certificatesSub h certificates
      (languagesSub languages
        (sectionHeader "Additional" (addTopSpacing st GAP_BEFORE_SECTION)))
  else st

/-- Translation of `generatePDF`: the fixed section pipeline followed by
`doc.save`. -/
def generatePDF (h : Host) (rd : ResumeData) : St :=
  let st : St := { y := MARGIN, evs := [] }
  let st := headerBlock h rd.personalDetails st
  let st := summarySection h rd.personalDetails st
  let st := experienceSection h rd.experience st
  let st := educationSection h rd.education st
  let st := skillsSection h rd.skills st
  let st := projectsSection h rd.projects st
  let st := additionalSection h rd.languages rd.certificates st
  emit st (Ev.save (fileNameOf rd))

/-! ### Trace well-formedness (claim C1)

A drawn mark is in bounds when its baseline is at or above the bottom
margin (`PAGE_H - MARGIN` = 282mm); a page break is justified when, at
the moment it ran, the pending block did not fit. -/

def evOk : Ev → Bool
  | Ev.text _ _ y _ _ _ => decide (y ≤ PAGE_H - MARGIN)
  | Ev.rule _ y1 _ y2 => decide (y1 ≤ PAGE_H - MARGIN) && decide (y2 ≤ PAGE_H - MARGIN)
  | Ev.link _ _ y _ => decide (y ≤ PAGE_H - MARGIN)
  | Ev.image _ _ y _ _ => decide (y ≤ PAGE_H - MARGIN)
  | Ev.pageBreak yAt required => decide (PAGE_H - MARGIN < yAt + required)
  | Ev.save _ => true

def Ok (st : St) : Prop := ∀ e ∈ st.evs, evOk e = true

@[simp] theorem emit_y (st : St) (e : Ev) : (emit st e).y = st.y := rfl

@[simp] theorem emit_evs (st : St) (e : Ev) : (emit st e).evs = st.evs ++ [e] := rfl

theorem Ok_emit {st : St} {e : Ev} (hst : Ok st) (he : evOk e = true) :
    Ok (emit st e) := by
  intro x hx
  simp only [emit_evs, List.mem_append, List.mem_singleton] at hx
  rcases hx with hx | rfl
  · exact hst x hx
  · exact he

theorem Ok_setY {st : St} {v : ℚ} (hst : Ok st) : Ok { st with y := v } := hst

theorem Ok_needSpace {st : St} {r : ℚ} (hst : Ok st) : Ok (needSpace st r) := by
  unfold needSpace
  split
  · next hgt =>
    intro x hx
    simp only [List.mem_append, List.mem_singleton] at hx
    rcases hx with hx | rfl
    · exact hst x hx
    · simpa [evOk] using hgt
  · exact hst

theorem needSpace_y_le {st : St} {r : ℚ} (hr : 0 ≤ r) :
    (needSpace st r).y ≤ PAGE_H - MARGIN := by
  unfold needSpace
  split
  · norm_num [MARGIN, PAGE_H]
  · next hle =>
    push_neg at hle
    linarith

theorem needSpace_y_cases (st : St) (r : ℚ) :
    (needSpace st r).y + r ≤ PAGE_H - MARGIN ∨ (needSpace st r).y = MARGIN := by
  unfold needSpace
  split
  · right; rfl
  · next hle =>
    push_neg at hle
    left
    linarith

theorem lineHeightMM_nonneg {fs : ℚ} (h : 0 ≤ fs) : 0 ≤ lineHeightMM fs := by
  unfold lineHeightMM lineHeightFactor mmPerPoint
  exact mul_nonneg (mul_nonneg h (by norm_num)) (by norm_num)

theorem lineHeightMM_le {fs : ℚ} (h : 0 ≤ fs) : lineHeightMM fs ≤ fs := by
  unfold lineHeightMM lineHeightFactor mmPerPoint
  nlinarith

theorem Ok_foldl {α : Type} {f : St → α → St}
    (hf : ∀ st a, Ok st → Ok (f st a)) :
    ∀ (l : List α) {st : St}, Ok st → Ok (l.foldl f st)
  | [], _, hst => hst
  | a :: l, st, hst => Ok_foldl hf l (hf st a hst)

theorem Ok_addTopSpacing {st : St} (g : ℚ) (hst : Ok st) :
    Ok (addTopSpacing st g) := Ok_setY (Ok_needSpace hst)

theorem Ok_sectionHeader (title : String) {st : St} (hst : Ok st) :
    Ok (sectionHeader title st) := by
  unfold sectionHeader
  have hlh : (0:ℚ) ≤ lineHeightMM SECTION_TITLE_SIZE :=
    lineHeightMM_nonneg (by norm_num [SECTION_TITLE_SIZE])
  have hy2 : (needSpace st (lineHeightMM SECTION_TITLE_SIZE + 6)).y + 2 ≤ PAGE_H - MARGIN := by
    rcases needSpace_y_cases st (lineHeightMM SECTION_TITLE_SIZE + 6) with hc | hc
    · linarith
    · rw [hc]; norm_num [MARGIN, PAGE_H]
  apply Ok_setY
  apply Ok_emit
  · apply Ok_emit (Ok_needSpace hst)
    simp only [evOk, decide_eq_true_eq]
    exact needSpace_y_le (by linarith)
  · simp only [evOk, emit_y, Bool.and_eq_true, decide_eq_true_eq]
    exact ⟨hy2, hy2⟩

theorem Ok_paragraphLine {fs lh : ℚ} (hlh : 0 ≤ lh) (line : String)
    {st : St} (hst : Ok st) : Ok (paragraphLine fs lh st line) := by
  unfold paragraphLine
  apply Ok_setY
  apply Ok_emit (Ok_needSpace hst)
  simp only [evOk, decide_eq_true_eq]
  exact needSpace_y_le hlh

theorem Ok_writeParagraph (h : Host) (txt : String) {fs : ℚ} (hfs : 0 ≤ fs)
    (maxWidth : ℚ) {st : St} (hst : Ok st) :
    Ok (writeParagraph h txt fs maxWidth st) := by
  unfold writeParagraph
  exact Ok_foldl (fun st line hs =>
    Ok_paragraphLine (lineHeightMM_nonneg hfs) line hs) _ hst

theorem Ok_bulletWrapLine {fs indent lh : ℚ} (hlh : 0 ≤ lh) (w : String)
    {st : St} (hst : Ok st) : Ok (bulletWrapLine fs indent lh st w) := by
  unfold bulletWrapLine
  apply Ok_setY
  apply Ok_emit (Ok_needSpace hst)
  simp only [evOk, decide_eq_true_eq]
  exact needSpace_y_le hlh

theorem Ok_bulletItem (h : Host) {fs : ℚ} (hfs : 0 ≤ fs) (indent : ℚ)
    (bullet : String) {st : St} (hst : Ok st) (raw : String) :
    Ok (bulletItem h fs indent bullet st raw) := by
  unfold bulletItem
  have hlh : 0 ≤ lineHeightMM fs := lineHeightMM_nonneg hfs
  have hy : (needSpace st (lineHeightMM fs)).y ≤ PAGE_H - MARGIN := needSpace_y_le hlh
  apply Ok_setY
  have hglyph : Ok (emit (needSpace st (lineHeightMM fs))
      (Ev.text bullet MARGIN (needSpace st (lineHeightMM fs)).y fs false Align.left)) := by
    apply Ok_emit (Ok_needSpace hst)
    simp only [evOk, decide_eq_true_eq]
    exact hy
  split
  · exact hglyph
  · apply Ok_foldl (fun st w hs => Ok_bulletWrapLine hlh w hs)
    apply Ok_setY
    apply Ok_emit hglyph
    simp only [evOk, emit_y, decide_eq_true_eq]
    exact hy

theorem Ok_writeBullets (h : Host) (bullets : List String) {fs : ℚ}
    (hfs : 0 ≤ fs) (indent : ℚ) (bullet : String) {st : St} (hst : Ok st) :
    Ok (writeBullets h bullets fs indent bullet st) := by
  unfold writeBullets
  exact Ok_foldl (fun st raw hs => Ok_bulletItem h hfs indent bullet hs raw) _ hst

theorem Ok_drawLink {st : St} (hst : Ok st) (hy : st.y ≤ PAGE_H - MARGIN)
    (txt : String) (x : ℚ) (url : String) : Ok (drawLink st txt x url) := by
  unfold drawLink
  apply Ok_emit hst
  simp only [evOk, decide_eq_true_eq]
  exact hy

@[simp] theorem drawLink_y (st : St) (txt : String) (x : ℚ) (url : String) :
    (drawLink st txt x url).y = st.y := rfl

theorem Ok_inlineItemDraw (h : Host) (fs : ℚ) {st : St} (hst : Ok st)
    (hy : st.y ≤ PAGE_H - MARGIN) (x : ℚ) (it : InlineItem) :
    Ok (inlineItemDraw h fs st x it) := by
  unfold inlineItemDraw
  have htext : Ok (emit st (Ev.text it.label x st.y fs false Align.left)) := by
    apply Ok_emit hst
    simp only [evOk, decide_eq_true_eq]
    exact hy
  match it.url with
  | some u =>
    simp only []
    split
    · exact Ok_drawLink hst hy _ _ _
    · exact htext
  | none => exact htext

@[simp] theorem inlineItemDraw_y (h : Host) (fs : ℚ) (st : St) (x : ℚ)
    (it : InlineItem) : (inlineItemDraw h fs st x it).y = st.y := by
  unfold inlineItemDraw
  match it.url with
  | some u =>
    simp only []
    split <;> simp
  | none => simp

theorem Ok_inlineLoop (h : Host) (fs : ℚ) :
    ∀ (items : List InlineItem) (x : ℚ) {st : St}, Ok st →
      st.y ≤ PAGE_H - MARGIN → Ok (inlineLoop h fs items x st)
  | [], _, _, hst, _ => hst
  | [it], x, st, hst, hy => Ok_inlineItemDraw h fs hst hy x it
  | it :: it2 :: rest, x, st, hst, hy => by
    unfold inlineLoop
    apply Ok_inlineLoop h fs (it2 :: rest)
    · apply Ok_emit (Ok_inlineItemDraw h fs hst hy x it)
      simp only [evOk, emit_y, inlineItemDraw_y, decide_eq_true_eq]
      exact hy
    · simp only [emit_y, inlineItemDraw_y]
      exact hy

theorem Ok_drawInlineCentered (h : Host) (items : List InlineItem) (fs : ℚ)
    {st : St} (hst : Ok st) (hy : st.y ≤ PAGE_H - MARGIN) :
    Ok (drawInlineCentered h items fs st) :=
  Ok_inlineLoop h fs items _ hst hy

theorem Ok_ite {c : Prop} [Decidable c] {st A : St}
    (hst : Ok st) (hA : Ok st → Ok A) : Ok (if c then A else st) := by
  split
  · exact hA hst
  · exact hst

theorem Ok_nameStep (pd : PersonalDetails) {st : St} (hst : Ok st) :
    Ok (nameStep pd st) := by
  unfold nameStep
  apply Ok_setY
  apply Ok_emit (Ok_needSpace hst)
  simp only [evOk, decide_eq_true_eq]
  exact needSpace_y_le (lineHeightMM_nonneg (by norm_num [NAME_SIZE]))

theorem Ok_contactsStep (h : Host) (pd : PersonalDetails) {st : St}
    (hst : Ok st) : Ok (contactsStep h pd st) := by
  unfold contactsStep
  apply Ok_ite hst
  intro hs
  apply Ok_setY
  exact Ok_drawInlineCentered h _ _ (Ok_needSpace hs)
    (needSpace_y_le (lineHeightMM_nonneg (by norm_num [META_SIZE])))

theorem Ok_linksStep (h : Host) (pd : PersonalDetails) {st : St}
    (hst : Ok st) : Ok (linksStep h pd st) := by
  unfold linksStep
  apply Ok_ite hst
  intro hs
  apply Ok_setY
  exact Ok_drawInlineCentered h _ _ (Ok_needSpace hs)
    (needSpace_y_le (lineHeightMM_nonneg (by norm_num [META_SIZE])))

theorem Ok_photoStep (h : Host) (pd : PersonalDetails) {st : St}
    (hst : Ok st) : Ok (photoStep h pd st) := by
  unfold photoStep
  split
  · cases himg : imageUrlToDataUrl h pd.photoUrl with
    | ok dataUrl =>
      apply Ok_setY
      apply Ok_emit hst
      simp only [evOk, decide_eq_true_eq]
      norm_num [MARGIN, PAGE_H]
    | error e => exact hst
  · exact hst

theorem Ok_headerBlock (h : Host) (pd : PersonalDetails) {st : St}
    (hst : Ok st) : Ok (headerBlock h pd st) :=
  Ok_photoStep h pd (Ok_linksStep h pd (Ok_contactsStep h pd (Ok_nameStep pd hst)))

theorem Ok_summarySection (h : Host) (pd : PersonalDetails) {st : St}
    (hst : Ok st) : Ok (summarySection h pd st) := by
  unfold summarySection
  apply Ok_ite hst
  intro hs
  apply Ok_setY
  exact Ok_writeParagraph h _ (by norm_num [BODY_SIZE]) _
    (Ok_sectionHeader _ (Ok_addTopSpacing _ hs))

theorem Ok_expItem (h : Host) (e : ExperienceItem) (st : St) (hst : Ok st) :
    Ok (expItem h st e) := by
  have hsub : (0:ℚ) ≤ lineHeightMM SUBHEADING_SIZE + 1 := by
    have : (0:ℚ) ≤ lineHeightMM SUBHEADING_SIZE :=
      lineHeightMM_nonneg (by norm_num [SUBHEADING_SIZE])
    linarith
  have hmeta : (0:ℚ) ≤ lineHeightMM META_SIZE :=
    lineHeightMM_nonneg (by norm_num [META_SIZE])
  unfold expItem
  apply Ok_setY
  apply Ok_ite
  · -- state before the description bullets
    apply Ok_addTopSpacing
    apply Ok_setY
    apply Ok_ite
    · -- state before the optional location
      apply Ok_emit
      · apply Ok_needSpace
        apply Ok_addTopSpacing
        apply Ok_setY
        apply Ok_emit
        · apply Ok_emit (Ok_needSpace hst)
          simp only [evOk, decide_eq_true_eq]
          exact needSpace_y_le hsub
        · simp only [evOk, emit_y, decide_eq_true_eq]
          exact needSpace_y_le hsub
      · simp only [evOk, decide_eq_true_eq]
        exact needSpace_y_le hmeta
    · intro hs
      apply Ok_emit hs
      simp only [evOk, emit_y, decide_eq_true_eq]
      exact needSpace_y_le hmeta
  · intro hs
    exact Ok_writeBullets h _ (by norm_num [BODY_SIZE]) _ _ hs

theorem Ok_experienceSection (h : Host) (exps : List ExperienceItem)
    {st : St} (hst : Ok st) : Ok (experienceSection h exps st) := by
  unfold experienceSection
  split
  · exact Ok_foldl (fun st e hs => Ok_expItem h e st hs) _
      (Ok_sectionHeader _ (Ok_addTopSpacing _ hst))
  · exact hst

theorem Ok_eduItem (h : Host) (e : EducationItem) (st : St) (hst : Ok st) :
    Ok (eduItem h st e) := by
  have hsub : (0:ℚ) ≤ lineHeightMM SUBHEADING_SIZE :=
    lineHeightMM_nonneg (by norm_num [SUBHEADING_SIZE])
  have hmeta : (0:ℚ) ≤ lineHeightMM META_SIZE :=
    lineHeightMM_nonneg (by norm_num [META_SIZE])
  unfold eduItem
  apply Ok_setY
  apply Ok_ite
  · -- state before the optional description paragraph
    apply Ok_ite
    · -- state before the optional GPA line
      apply Ok_addTopSpacing
      apply Ok_setY
      apply Ok_ite
      · -- state before the optional location
        apply Ok_emit
        · apply Ok_needSpace
          apply Ok_addTopSpacing
          apply Ok_setY
          apply Ok_emit
          · apply Ok_emit (Ok_needSpace hst)
            simp only [evOk, decide_eq_true_eq]
            exact needSpace_y_le hsub
          · simp only [evOk, emit_y, decide_eq_true_eq]
            exact needSpace_y_le hsub
        · simp only [evOk, decide_eq_true_eq]
          exact needSpace_y_le hmeta
      · intro hs
        apply Ok_emit hs
        simp only [evOk, emit_y, decide_eq_true_eq]
        exact needSpace_y_le hmeta
    · intro hs
      apply Ok_setY
      apply Ok_emit (Ok_needSpace hs)
      simp only [evOk, decide_eq_true_eq]
      exact needSpace_y_le (lineHeightMM_nonneg (by norm_num [BODY_SIZE]))
  · intro hs
    exact Ok_writeParagraph h _ (by norm_num [BODY_SIZE]) _ hs

theorem Ok_educationSection (h : Host) (edus : List EducationItem)
    {st : St} (hst : Ok st) : Ok (educationSection h edus st) := by
  unfold educationSection
  split
  · exact Ok_foldl (fun st e hs => Ok_eduItem h e st hs) _
      (Ok_sectionHeader _ (Ok_addTopSpacing _ hst))
  · exact hst

theorem Ok_skillLine (startX : ℚ) (line : String) {st : St} (hst : Ok st) :
    Ok (skillLine (lineHeightMM BODY_SIZE) startX st line) := by
  unfold skillLine
  apply Ok_emit (Ok_setY (Ok_needSpace hst))
  simp only [evOk, decide_eq_true_eq]
  show (needSpace st (lineHeightMM BODY_SIZE)).y + lineHeightMM BODY_SIZE ≤ PAGE_H - MARGIN
  rcases needSpace_y_cases st (lineHeightMM BODY_SIZE) with hc | hc
  · linarith
  · rw [hc]
    norm_num [MARGIN, PAGE_H, lineHeightMM, lineHeightFactor, mmPerPoint, BODY_SIZE]

theorem Ok_skillLinesDraw (startX : ℚ) (lines : List String) {st : St}
    (hst : Ok st) (hy : st.y ≤ PAGE_H - MARGIN) :
    Ok (skillLinesDraw startX (lineHeightMM BODY_SIZE) lines st) := by
  unfold skillLinesDraw
  match lines with
  | [] => exact hst
  | l0 :: ls =>
    apply Ok_foldl (fun st line hs => Ok_skillLine startX line hs)
    apply Ok_emit hst
    simp only [evOk, decide_eq_true_eq]
    exact hy

theorem Ok_skillBucketBlock (h : Host) (st : St) (first : Bool)
    (bucket : CatBucket) (hst : Ok st) :
    Ok (skillBucketBlock h st first bucket) := by
  have hbody : (0:ℚ) ≤ lineHeightMM BODY_SIZE :=
    lineHeightMM_nonneg (by norm_num [BODY_SIZE])
  unfold skillBucketBlock
  apply Ok_setY
  apply Ok_skillLinesDraw
  · apply Ok_emit
    · apply Ok_needSpace
      apply Ok_needSpace
      apply Ok_ite hst
      intro hs
      exact Ok_addTopSpacing _ hs
    · simp only [evOk, decide_eq_true_eq]
      exact needSpace_y_le hbody
  · simp only [emit_y]
    exact needSpace_y_le hbody

theorem Ok_skillsFold (h : Host) :
    ∀ (l : List CatBucket) (p : St × Bool), Ok p.1 →
      Ok ((l.foldl (fun q bucket => (skillBucketBlock h q.1 q.2 bucket, false)) p).1)
  | [], _, hp => hp
  | b :: l, p, hp =>
    Ok_skillsFold h l (skillBucketBlock h p.1 p.2 b, false)
      (Ok_skillBucketBlock h p.1 p.2 b hp)

theorem Ok_skillsSection (h : Host) (skills : List SkillItem) {st : St}
    (hst : Ok st) : Ok (skillsSection h skills st) := by
  unfold skillsSection
  split
  · apply Ok_addTopSpacing
    exact Ok_skillsFold h _ _ (Ok_sectionHeader _ (Ok_addTopSpacing _ hst))
  · exact hst

theorem Ok_techLine (line : String) {st : St} (hst : Ok st) :
    Ok (techLine st line) := by
  unfold techLine
  apply Ok_setY
  apply Ok_emit (Ok_needSpace hst)
  simp only [evOk, decide_eq_true_eq]
  exact needSpace_y_le (lineHeightMM_nonneg (by norm_num [BODY_SIZE]))

theorem Ok_projItem (h : Host) (p : ProjectItem) (st : St) (hst : Ok st) :
    Ok (projItem h st p) := by
  have hsub : (0:ℚ) ≤ lineHeightMM SUBHEADING_SIZE :=
    lineHeightMM_nonneg (by norm_num [SUBHEADING_SIZE])
  have hmeta : (0:ℚ) ≤ lineHeightMM META_SIZE :=
    lineHeightMM_nonneg (by norm_num [META_SIZE])
  have hbody : (0:ℚ) ≤ lineHeightMM BODY_SIZE :=
    lineHeightMM_nonneg (by norm_num [BODY_SIZE])
  unfold projItem
  apply Ok_setY
  apply Ok_ite
  · apply Ok_ite
    · apply Ok_ite
      · apply Ok_addTopSpacing
        apply Ok_setY
        apply Ok_ite
        · apply Ok_emit (Ok_needSpace hst)
          simp only [evOk, decide_eq_true_eq]
          exact needSpace_y_le hsub
        · intro hs
          apply Ok_emit hs
          simp only [evOk, emit_y, decide_eq_true_eq]
          exact needSpace_y_le hsub
      · intro hs
        apply Ok_setY
        exact Ok_drawLink (Ok_needSpace hs) (needSpace_y_le hmeta) _ _ _
    · intro hs
      exact Ok_writeParagraph h _ (by norm_num [BODY_SIZE]) _ hs
  · intro hs
    apply Ok_foldl (fun st line hl => Ok_techLine line hl)
    apply Ok_emit (Ok_needSpace hs)
    simp only [evOk, decide_eq_true_eq]
    exact needSpace_y_le hbody

theorem Ok_projectsSection (h : Host) (projects : List ProjectItem) {st : St}
    (hst : Ok st) : Ok (projectsSection h projects st) := by
  unfold projectsSection
  split
  · exact Ok_foldl (fun st p hs => Ok_projItem h p st hs) _
      (Ok_sectionHeader _ (Ok_addTopSpacing _ hst))
  · exact hst

theorem Ok_langLine (lang : LanguageItem) {st : St} (hst : Ok st) :
    Ok (langLine st lang) := by
  unfold langLine
  apply Ok_setY
  apply Ok_emit (Ok_needSpace hst)
  simp only [evOk, decide_eq_true_eq]
  exact needSpace_y_le (lineHeightMM_nonneg (by norm_num [BODY_SIZE]))

theorem Ok_certBlock (h : Host) (st : St) (c : CertificateItem) (hst : Ok st) :
    Ok (certBlock h st c) := by
  have hbody : (0:ℚ) ≤ lineHeightMM BODY_SIZE :=
    lineHeightMM_nonneg (by norm_num [BODY_SIZE])
  unfold certBlock
  apply Ok_setY
  apply Ok_setY
  apply Ok_emit
  · apply Ok_needSpace
    apply Ok_setY
    apply Ok_emit (Ok_needSpace hst)
    simp only [evOk, decide_eq_true_eq]
    exact needSpace_y_le hbody
  · simp only [evOk, decide_eq_true_eq]
    exact needSpace_y_le hbody

theorem Ok_languagesSub (languages : List LanguageItem) {st : St}
    (hst : Ok st) : Ok (languagesSub languages st) := by
  unfold languagesSub
  apply Ok_ite hst
  intro hs
  apply Ok_setY
  apply Ok_foldl (fun st lang hl => Ok_langLine lang hl)
  apply Ok_setY
  apply Ok_emit (Ok_needSpace hs)
  simp only [evOk, decide_eq_true_eq]
  exact needSpace_y_le (lineHeightMM_nonneg (by norm_num [SUBHEADING_SIZE]))

theorem Ok_certificatesSub (h : Host) (certificates : List CertificateItem)
    {st : St} (hst : Ok st) : Ok (certificatesSub h certificates st) := by
  unfold certificatesSub
  apply Ok_ite hst
  intro hs
  apply Ok_foldl (fun st c hc => Ok_certBlock h st c hc)
  apply Ok_setY
  apply Ok_emit (Ok_needSpace hs)
  simp only [evOk, decide_eq_true_eq]
  exact needSpace_y_le (lineHeightMM_nonneg (by norm_num [SUBHEADING_SIZE]))

theorem Ok_additionalSection (h : Host) (languages : List LanguageItem)
    (certificates : List CertificateItem) {st : St} (hst : Ok st) :
    Ok (additionalSection h languages certificates st) := by
  unfold additionalSection
  split
  · exact Ok_certificatesSub h _
      (Ok_languagesSub _ (Ok_sectionHeader _ (Ok_addTopSpacing _ hst)))
  · exact hst

theorem Ok_start : Ok ({ y := MARGIN, evs := [] } : St) := by
  intro e he
  simp at he

theorem Ok_generatePDF (h : Host) (rd : ResumeData) : Ok (generatePDF h rd) := by
  unfold generatePDF
  apply Ok_emit
  · exact Ok_additionalSection h _ _
      (Ok_projectsSection h _
        (Ok_skillsSection h _
          (Ok_educationSection h _
            (Ok_experienceSection h _
              (Ok_summarySection h _
                (Ok_headerBlock h _ Ok_start))))))
  · rfl

/-! ### Skill grouping facts (claims C2 and C3) -/

theorem ws_not_up {c : Char} (h : jsWhitespaceChar c = true) : upChar c = false := by
  simp only [jsWhitespaceChar, Bool.or_eq_true, Bool.and_eq_true,
    decide_eq_true_eq] at h
  cases hup : upChar c
  · rfl
  · exfalso
    simp only [upChar, Bool.and_eq_true, decide_eq_true_eq] at hup
    omega

theorem any_up_dropWhile (l : List Char) :
    (l.dropWhile jsWhitespaceChar).any upChar = l.any upChar := by
  induction l with
  | nil => rfl
  | cons c cs ih =>
    rw [List.dropWhile_cons]
    by_cases hc : jsWhitespaceChar c = true
    · rw [if_pos hc, ih, List.any_cons, ws_not_up hc, Bool.false_or]
    · rw [if_neg hc]

theorem hasUppercase_jsTrim (s : String) :
    hasUppercase (jsTrim s) = hasUppercase s := by
  show (((s.data.dropWhile jsWhitespaceChar).reverse.dropWhile
    jsWhitespaceChar).reverse).any upChar = s.data.any upChar
  rw [List.any_reverse, any_up_dropWhile, List.any_reverse, any_up_dropWhile]

theorem any_up_replaceWsRunsAux {rep : String}
    (hrep : rep.data.any upChar = false) :
    ∀ (l : List Char) (b : Bool),
      (replaceWsRunsAux rep l b).data.any upChar = l.any upChar := by
  intro l
  induction l with
  | nil => intro b; rfl
  | cons c cs ih =>
    intro b
    by_cases hc : jsWhitespaceChar c = true
    · simp only [replaceWsRunsAux, hc, if_true, String.data_append,
        List.any_append, ih, List.any_cons, ws_not_up hc, Bool.false_or]
      cases b
      · simp [hrep]
      · simp
    · simp only [replaceWsRunsAux, hc, if_false, Bool.false_eq_true,
        String.data_append, List.any_append, ih, List.any_cons]
      simp [String.singleton]

theorem hasUppercase_collapseTrim (s : String) :
    hasUppercase (collapseTrim s) = hasUppercase s := by
  unfold collapseTrim replaceWsRuns
  rw [hasUppercase_jsTrim]
  exact any_up_replaceWsRunsAux (by decide) s.data false

/-- The display label the grouping loop of the source maintains,
characterized over the items of a bucket: "Category" when the first
item's normalized category is blank, otherwise the earliest
uppercase-containing normalized original, falling back to the first
item's original. -/
def bucketLabelSpec (nfkc : String → String) (items : List SkillItem) : String :=
  match items with
  | [] => "Category"
  | s0 :: _ =>
    if categoryOriginal nfkc s0 = "" then "Category"
    else ((items.map (categoryOriginal nfkc)).find? hasUppercase).getD
      (categoryOriginal nfkc s0)

theorem bucketLabelSpec_append (nfkc : String → String)
    (items : List SkillItem) (s : SkillItem) (hne : items ≠ []) :
    bucketLabelSpec nfkc (items ++ [s]) =
      if !hasUppercase (bucketLabelSpec nfkc items) &&
          hasUppercase (categoryOriginal nfkc s)
      then categoryOriginal nfkc s else bucketLabelSpec nfkc items := by
  match items, hne with
  | s0 :: rest, _ =>
    show bucketLabelSpec nfkc (s0 :: (rest ++ [s])) = _
    simp only [bucketLabelSpec]
    by_cases h0 : categoryOriginal nfkc s0 = ""
    · rw [if_pos h0, if_pos h0]
      have : hasUppercase "Category" = true := by decide
      rw [this]
      simp
    · rw [if_neg h0, if_neg h0]
      have hmap : (s0 :: (rest ++ [s])).map (categoryOriginal nfkc) =
          ((s0 :: rest).map (categoryOriginal nfkc)) ++ [categoryOriginal nfkc s] := by
        simp
      rw [hmap, List.find?_append]
      cases hfind : ((s0 :: rest).map (categoryOriginal nfkc)).find? hasUppercase with
      | some u =>
        have hu : hasUppercase u = true := List.find?_some hfind
        simp [Option.or, hu]
      | none =>
        have h0up : hasUppercase (categoryOriginal nfkc s0) = false := by
          have := List.find?_eq_none.mp hfind (categoryOriginal nfkc s0) (by simp)
          simpa using this
        simp only [Option.or, Option.getD_some, Option.getD_none, h0up,
          Bool.not_false, Bool.true_and]
        cases hs : hasUppercase (categoryOriginal nfkc s)
        · simp [List.find?, hs]
        · simp [List.find?, hs]

theorem mem_foldl_dedup (x : String) :
    ∀ (l acc : List String),
      (x ∈ l.foldl (fun acc k => if k ∈ acc then acc else acc ++ [k]) acc) ↔
        x ∈ acc ∨ x ∈ l := by
  intro l
  induction l with
  | nil => simp
  | cons k t ih =>
    intro acc
    rw [List.foldl_cons, ih]
    by_cases hk : k ∈ acc
    · rw [if_pos hk]
      constructor
      · rintro (hx | hx)
        · exact Or.inl hx
        · exact Or.inr (List.mem_cons_of_mem _ hx)
      · rintro (hx | hx)
        · exact Or.inl hx
        · rcases List.mem_cons.mp hx with rfl | hx
          · exact Or.inl hk
          · exact Or.inr hx
    · rw [if_neg hk]
      simp only [List.mem_append, List.mem_singleton, List.mem_cons]
      tauto

theorem mem_dedupFirstSeen {x : String} {l : List String} :
    x ∈ dedupFirstSeen l ↔ x ∈ l := by
  unfold dedupFirstSeen
  rw [mem_foldl_dedup]
  simp

theorem dedupFirstSeen_append (l : List String) (k : String) :
    dedupFirstSeen (l ++ [k]) =
      if k ∈ dedupFirstSeen l then dedupFirstSeen l
      else dedupFirstSeen l ++ [k] := by
  unfold dedupFirstSeen
  rw [List.foldl_append]
  rfl

theorem nodup_foldl_dedup :
    ∀ (l acc : List String), acc.Nodup →
      (l.foldl (fun acc k => if k ∈ acc then acc else acc ++ [k]) acc).Nodup := by
  intro l
  induction l with
  | nil => exact fun acc h => h
  | cons k t ih =>
    intro acc hacc
    rw [List.foldl_cons]
    by_cases hk : k ∈ acc
    · rw [if_pos hk]; exact ih acc hacc
    · rw [if_neg hk]
      apply ih
      rw [List.nodup_append]
      refine ⟨hacc, List.nodup_singleton k, ?_⟩
      intro a ha hak
      rw [List.mem_singleton] at hak
      exact hk (hak ▸ ha)

theorem dedupFirstSeen_nodup (l : List String) : (dedupFirstSeen l).Nodup :=
  nodup_foldl_dedup l [] List.nodup_nil

theorem insertSkill_keys (key orig : String) (s : SkillItem) :
    ∀ m : List (String × CatBucket),
      (insertSkill key orig s m).map Prod.fst =
        if key ∈ m.map Prod.fst then m.map Prod.fst
        else m.map Prod.fst ++ [key] := by
  intro m
  induction m with
  | nil => simp [insertSkill]
  | cons kb t ih =>
    obtain ⟨k, b⟩ := kb
    by_cases hk : k = key
    · subst hk
      simp [insertSkill]
    · simp only [insertSkill, if_neg hk, List.map_cons, ih]
      have hne : ¬key = k := fun h => hk h.symm
      by_cases hmem : key ∈ t.map Prod.fst
      · simp [hmem, hne]
      · simp [hmem, hne]

theorem map_ite_id (key : String) (f : String × CatBucket → String × CatBucket) :
    ∀ t : List (String × CatBucket), key ∉ t.map Prod.fst →
      t.map (fun kb => if kb.1 = key then f kb else kb) = t := by
  intro t
  induction t with
  | nil => intro _; rfl
  | cons kb t ih =>
    intro hmem
    simp only [List.map_cons, List.mem_cons, not_or] at hmem ⊢
    have h1 : ¬kb.1 = key := fun h => hmem.1 h.symm
    rw [if_neg h1, ih hmem.2]

theorem insertSkill_eq_of_mem (key orig : String) (s : SkillItem) :
    ∀ m : List (String × CatBucket), (m.map Prod.fst).Nodup →
      key ∈ m.map Prod.fst →
      insertSkill key orig s m = m.map (fun kb =>
        if kb.1 = key then
          (kb.1, ⟨if !hasUppercase kb.2.label && hasUppercase orig then orig
                  else kb.2.label,
                  kb.2.items ++ [s]⟩)
        else kb) := by
  intro m
  induction m with
  | nil => intro _ hmem; simp at hmem
  | cons kb t ih =>
    obtain ⟨k, b⟩ := kb
    intro hnd hmem
    simp only [List.map_cons, List.nodup_cons] at hnd
    by_cases hk : k = key
    · subst hk
      simp only [insertSkill, List.map_cons]
      rw [map_ite_id _ _ t hnd.1]
      simp
    · rw [List.map_cons, List.mem_cons] at hmem
      rcases hmem with h | hmem
      · exact absurd h.symm hk
      · simp only [insertSkill, if_neg hk, List.map_cons, if_neg hk,
          ih hnd.2 hmem]

theorem insertSkill_eq_of_not_mem (key orig : String) (s : SkillItem) :
    ∀ m : List (String × CatBucket), key ∉ m.map Prod.fst →
      insertSkill key orig s m =
        m ++ [(key, ⟨if orig = "" then "Category" else orig, [s]⟩)] := by
  intro m
  induction m with
  | nil => intro _; rfl
  | cons kb t ih =>
    obtain ⟨k, b⟩ := kb
    intro hmem
    simp only [List.map_cons, List.mem_cons, not_or] at hmem
    have hk : ¬k = key := fun h => hmem.1 h.symm
    simp only [insertSkill, if_neg hk, List.cons_append, ih hmem.2]

/-- Loop invariant of the grouping fold: the map keys are the distinct
normalized keys of the processed prefix in first-seen order, every bucket
holds exactly the processed skills with its key in input order, and every
label is characterized by `bucketLabelSpec`. -/
def MapInv (nfkc lower : String → String) (processed : List SkillItem)
    (m : List (String × CatBucket)) : Prop :=
  m.map Prod.fst = dedupFirstSeen (processed.map (categoryKey nfkc lower)) ∧
  ∀ kb ∈ m,
    kb.2.items = processed.filter (fun s => categoryKey nfkc lower s = kb.1) ∧
    kb.2.label = bucketLabelSpec nfkc kb.2.items

theorem MapInv_step (nfkc lower : String → String)
    (processed : List SkillItem) (m : List (String × CatBucket))
    (s : SkillItem) (hinv : MapInv nfkc lower processed m) :
    MapInv nfkc lower (processed ++ [s])
      (insertSkill (categoryKey nfkc lower s) (categoryOriginal nfkc s) s m) := by
  obtain ⟨hkeys, hbuckets⟩ := hinv
  have hnodup : (m.map Prod.fst).Nodup := by
    rw [hkeys]; exact dedupFirstSeen_nodup _
  have hkeysApp : dedupFirstSeen ((processed ++ [s]).map (categoryKey nfkc lower)) =
      if categoryKey nfkc lower s ∈ m.map Prod.fst then m.map Prod.fst
      else m.map Prod.fst ++ [categoryKey nfkc lower s] := by
    rw [List.map_append, List.map_singleton, dedupFirstSeen_append, ← hkeys]
  by_cases hmem : categoryKey nfkc lower s ∈ m.map Prod.fst
  · rw [insertSkill_eq_of_mem _ _ _ m hnodup hmem]
    constructor
    · rw [List.map_map, hkeysApp, if_pos hmem]
      apply List.map_congr_left
      intro kb _
      by_cases hkb : kb.1 = categoryKey nfkc lower s <;> simp [hkb]
    · intro kb2 hkb2
      obtain ⟨kb, hkb, rfl⟩ := List.mem_map.mp hkb2
      obtain ⟨hitems, hlabel⟩ := hbuckets kb hkb
      by_cases hkb1 : kb.1 = categoryKey nfkc lower s
      · rw [if_pos hkb1]
        have hne : processed.filter
            (fun s2 => categoryKey nfkc lower s2 = kb.1) ≠ [] := by
          have hkmem : kb.1 ∈ processed.map (categoryKey nfkc lower) := by
            rw [← mem_dedupFirstSeen, ← hkeys]
            exact hkb1 ▸ hmem
          obtain ⟨s3, hs3, hks3⟩ := List.mem_map.mp hkmem
          exact List.ne_nil_of_mem (List.mem_filter.mpr ⟨hs3, by simp [hks3]⟩)
        have hne2 : kb.2.items ≠ [] := hitems ▸ hne
        constructor
        · show kb.2.items ++ [s] = _
          rw [List.filter_append, hitems]
          simp [hkb1]
        · show (if !hasUppercase kb.2.label && hasUppercase (categoryOriginal nfkc s)
              then categoryOriginal nfkc s else kb.2.label) =
            bucketLabelSpec nfkc (kb.2.items ++ [s])
          rw [bucketLabelSpec_append nfkc kb.2.items s hne2, hlabel]
      · rw [if_neg hkb1]
        refine ⟨?_, hlabel⟩
        rw [List.filter_append, hitems]
        have : ¬categoryKey nfkc lower s = kb.1 := fun h => hkb1 h.symm
        simp [this]
  · rw [insertSkill_eq_of_not_mem _ _ _ m hmem]
    have hnotproc : categoryKey nfkc lower s ∉
        processed.map (categoryKey nfkc lower) := by
      rw [← mem_dedupFirstSeen, ← hkeys]
      exact hmem
    constructor
    · rw [List.map_append, hkeysApp, if_neg hmem]
      rfl
    · intro kb hkb
      rw [List.mem_append, List.mem_singleton] at hkb
      rcases hkb with hkb | rfl
      · obtain ⟨hitems, hlabel⟩ := hbuckets kb hkb
        refine ⟨?_, hlabel⟩
        rw [List.filter_append, hitems]
        have hkne : ¬categoryKey nfkc lower s = kb.1 := by
          intro h
          exact hmem (h ▸ List.mem_map_of_mem Prod.fst hkb)
        simp [hkne]
      · constructor
        · show [s] = _
          rw [List.filter_append]
          have h1 : processed.filter
              (fun s2 => categoryKey nfkc lower s2 =
                categoryKey nfkc lower s) = [] := by
            rw [List.filter_eq_nil_iff]
            intro a ha
            simp only [decide_eq_true_eq]
            intro hak
            exact hnotproc (hak ▸ List.mem_map_of_mem _ ha)
          rw [h1]
          simp
        · show (if categoryOriginal nfkc s = "" then "Category"
              else categoryOriginal nfkc s) = bucketLabelSpec nfkc [s]
          simp only [bucketLabelSpec]
          by_cases h0 : categoryOriginal nfkc s = ""
          · rw [if_pos h0, if_pos h0]
          · rw [if_neg h0, if_neg h0]
            cases hup : hasUppercase (categoryOriginal nfkc s) <;>
              simp [List.find?, hup]

theorem MapInv_foldl (nfkc lower : String → String) :
    ∀ (rest processed : List SkillItem) (m : List (String × CatBucket)),
      MapInv nfkc lower processed m →
      MapInv nfkc lower (processed ++ rest)
        (rest.foldl (fun m s =>
          insertSkill (categoryKey nfkc lower s) (categoryOriginal nfkc s) s m) m)
  | [], processed, m, hp => by simpa using hp
  | s :: rest, processed, m, hp => by
    have hstep := MapInv_step nfkc lower processed m s hp
    have := MapInv_foldl nfkc lower rest (processed ++ [s]) _ hstep
    simpa [List.append_assoc] using this

theorem groupSkills_inv (nfkc lower : String → String)
    (skills : List SkillItem) :
    MapInv nfkc lower skills
      (skills.foldl (fun m s =>
        insertSkill (categoryKey nfkc lower s) (categoryOriginal nfkc s) s m)
        []) := by
  have h0 : MapInv nfkc lower [] [] := by
    constructor
    · rfl
    · intro kb hkb
      simp at hkb
  simpa using MapInv_foldl nfkc lower skills [] [] h0

/-- Partition shape of the grouping: one bucket per distinct normalized
key in first-seen order, holding exactly the skills with that key in
input order. -/
theorem groupSkills_items (nfkc lower : String → String)
    (skills : List SkillItem) :
    (groupSkillsCaseInsensitive nfkc lower skills).map CatBucket.items =
      (dedupFirstSeen (skills.map (categoryKey nfkc lower))).map
        (fun k => skills.filter (fun s => categoryKey nfkc lower s = k)) := by
  obtain ⟨hkeys, hb⟩ := groupSkills_inv nfkc lower skills
  unfold groupSkillsCaseInsensitive
  rw [List.map_map, ← hkeys, List.map_map]
  apply List.map_congr_left
  intro kb hkb
  exact (hb kb hkb).1

/-- Label shape of the grouping. -/
theorem groupSkills_labels (nfkc lower : String → String)
    (skills : List SkillItem) :
    ∀ b ∈ groupSkillsCaseInsensitive nfkc lower skills,
      b.label = bucketLabelSpec nfkc b.items := by
  obtain ⟨_, hb⟩ := groupSkills_inv nfkc lower skills
  intro b hbB
  unfold groupSkillsCaseInsensitive at hbB
  obtain ⟨kb, hkb, rfl⟩ := List.mem_map.mp hbB
  exact (hb kb hkb).2

/-! ### Claim theorems -/

/-- C1: for every host behaviour and resume input, every mark drawn by
`generatePDF` (text run, rule line, bullet line, link, image) has its
vertical position at or above the bottom margin (`y ≤ 297 − 15`), and
every page break fires only at a point where the pending block's required
height did not fit above the bottom margin (`y + required > 297 − 15`):
content never lands past the bottom margin without a break having first
reset the cursor to the top margin, and no unneeded break occurs. -/
theorem C1_no_draw_below_bottom_margin (h : Host) (rd : ResumeData) :
    (generatePDF h rd).evs.all evOk = true := by
  rw [List.all_eq_true]
  exact Ok_generatePDF h rd

/-- C2: for every host normalizer and lower-caser and every skill list,
skills whose category strings agree after NFKC normalization, whitespace
collapsing, trimming and lower-casing land in exactly one bucket — the
buckets are, in first-seen order of the distinct normalized keys, exactly
the input-order sublists of skills sharing each key; a bucket's label
contains an ASCII uppercase letter whenever one of its members' raw
category strings does (for any normalizer that does not erase uppercase
letters); and a bucket whose first member's normalized category string is
blank gets the literal label "Category". -/
theorem C2_grouping (nfkc lower : String → String) (skills : List SkillItem)
    (hnfkc : ∀ t : String, hasUppercase t = true → hasUppercase (nfkc t) = true) :
    (groupSkillsCaseInsensitive nfkc lower skills).map CatBucket.items =
      (dedupFirstSeen (skills.map (categoryKey nfkc lower))).map
        (fun k => skills.filter (fun s => categoryKey nfkc lower s = k)) ∧
    (∀ b ∈ groupSkillsCaseInsensitive nfkc lower skills,
      (∃ s ∈ b.items, hasUppercase s.category = true) →
        hasUppercase b.label = true) ∧
    (∀ b ∈ groupSkillsCaseInsensitive nfkc lower skills,
      ∀ s0 ∈ b.items.head?.toList,
        categoryOriginal nfkc s0 = "" → b.label = "Category") := by
  refine ⟨groupSkills_items nfkc lower skills, ?_, ?_⟩
  · intro b hb hex
    obtain ⟨s, hs, hup⟩ := hex
    have hlab := groupSkills_labels nfkc lower skills b hb
    have horig : hasUppercase (categoryOriginal nfkc s) = true := by
      unfold categoryOriginal
      rw [hasUppercase_collapseTrim]
      exact hnfkc _ hup
    rw [hlab]
    cases hbi : b.items with
    | nil => rw [hbi] at hs; simp at hs
    | cons s0 rest =>
      rw [hbi] at hs
      simp only [bucketLabelSpec]
      by_cases h0 : categoryOriginal nfkc s0 = ""
      · rw [if_pos h0]; decide
      · rw [if_neg h0]
        have hsome : (((s0 :: rest).map (categoryOriginal nfkc)).find?
            hasUppercase).isSome = true :=
          List.find?_isSome.mpr
            ⟨categoryOriginal nfkc s, List.mem_map_of_mem _ hs, horig⟩
        obtain ⟨u, hu⟩ := Option.isSome_iff_exists.mp hsome
        rw [hu, Option.getD_some]
        exact List.find?_some hu
  · intro b hb s0 hs0 h0
    have hlab := groupSkills_labels nfkc lower skills b hb
    cases hbi : b.items with
    | nil => rw [hbi] at hs0; simp at hs0
    | cons a t =>
      rw [hbi] at hs0
      simp only [List.head?_cons, Option.toList_some, List.mem_singleton] at hs0
      subst hs0
      rw [hlab, hbi]
      simp only [bucketLabelSpec]
      rw [if_pos h0]

/-- Input of the spec's "Programming" example: three case and whitespace
variants of one category. -/
def progSkills : List SkillItem :=
  [⟨"1", "Python", "expert", "Programming"⟩,
   ⟨"2", "Linux", "advanced", " programming "⟩,
   ⟨"3", "C++", "advanced", "PROGRAMMING"⟩]

/-- Witness for C2 at the "Programming" example, with the identity
normalizer and ASCII lower-casing as host functions: one bucket, labelled
"Programming", holding all three skills in input order. -/
theorem C2_grouping_witness :
    (groupSkillsCaseInsensitive id asciiLower progSkills).map CatBucket.items =
      (dedupFirstSeen (progSkills.map (categoryKey id asciiLower))).map
        (fun k => progSkills.filter (fun s => categoryKey id asciiLower s = k)) ∧
    (groupSkillsCaseInsensitive id asciiLower progSkills).map CatBucket.label =
      ["Programming"] :=
  ⟨(C2_grouping id asciiLower progSkills (fun _ ht => ht)).1, by decide⟩

/-- Two different uppercase-containing spellings that collide
case-insensitively, the second appearing later. -/
def webSkills : List SkillItem :=
  [⟨"1", "x", "expert", "WEBDEV"⟩, ⟨"2", "y", "advanced", "WebDev"⟩]

/-- C3 counterexample: "WEBDEV" and "WebDev" are different
uppercase-containing spellings with the same case-insensitive key, and
the bucket's label is "WEBDEV" — the spelling that appears EARLIER, not
the later one the claim requires. -/
theorem C3_counterexample :
    categoryKey id asciiLower (⟨"1", "x", "expert", "WEBDEV"⟩ : SkillItem) =
      categoryKey id asciiLower (⟨"2", "y", "advanced", "WebDev"⟩ : SkillItem) ∧
    hasUppercase "WEBDEV" = true ∧ hasUppercase "WebDev" = true ∧
    ("WEBDEV" : String) ≠ "WebDev" ∧
    (groupSkillsCaseInsensitive id asciiLower webSkills).map CatBucket.label =
      ["WEBDEV"] := by
  decide

/-- C3 amended: when category spellings collide case-insensitively, the
bucket's label is characterized by `bucketLabelSpec`: the EARLIEST
uppercase-containing normalized spelling wins (an initial all-lowercase
label is upgraded by the first later uppercase-containing variant and is
then frozen); with no uppercase-containing variant the first spelling
stays, and a blank first spelling gives the literal "Category". -/
theorem C3_label_earliest_uppercase_wins (nfkc lower : String → String)
    (skills : List SkillItem) :
    ∀ b ∈ groupSkillsCaseInsensitive nfkc lower skills,
      b.label = bucketLabelSpec nfkc b.items :=
  groupSkills_labels nfkc lower skills

/-- Witness for the amended C3 at the `webSkills` input: the single
bucket is `⟨"WEBDEV", webSkills⟩` and its label matches
`bucketLabelSpec`. -/
theorem C3_label_earliest_uppercase_wins_witness :
    (⟨"WEBDEV", webSkills⟩ : CatBucket).label =
      bucketLabelSpec id (⟨"WEBDEV", webSkills⟩ : CatBucket).items :=
  C3_label_earliest_uppercase_wins id asciiLower webSkills
    ⟨"WEBDEV", webSkills⟩ (by decide)

/-! ### Text wrapping (claim C4)

The wrap step the engine uses is jsPDF's `splitTextToSize` — library
code, not part of this repository's sources — so the wrap function is
modelled from the spec (§4.1). -/

/-- Modelled from the spec: the whitespace-delimited words of a string
(maximal whitespace-free runs, in order); the accumulator carries the
current run reversed. -/
def wordsAux : List Char → List Char → List (List Char)
  | [], cur => if cur = [] then [] else [cur.reverse]
  | c :: cs, cur =>
    if jsWhitespaceChar c then
      if cur = [] then wordsAux cs [] else cur.reverse :: wordsAux cs []
    else wordsAux cs (c :: cur)

def jsWords (s : String) : List String := (wordsAux s.data []).map String.mk

/-- Modelled from the spec: rendered width of a line of words — word
widths plus one space width between adjacent words. -/
def lineW (wordW : String → ℚ) (spaceW : ℚ) : List String → ℚ
  | [] => 0
  | [w] => wordW w
  | w :: ws => wordW w + spaceW + lineW wordW spaceW ws

/-- Modelled from the spec: greedy word wrap, missing from src/ (jsPDF's
`splitTextToSize`) — append the next word to the current line when the
line still fits within `maxW`, otherwise start a new line; breaks happen
only between words, never inside one.  `line` is the current line
reversed, `curW` its rendered width. -/
def wrapGreedyAux (wordW : String → ℚ) (spaceW maxW : ℚ) :
    List String → List String → ℚ → List (List String)
  | [], line, _ => [line.reverse]
  | w :: ws, line, curW =>
    if curW + spaceW + wordW w ≤ maxW then
      wrapGreedyAux wordW spaceW maxW ws (w :: line) (curW + spaceW + wordW w)
    else
      line.reverse :: wrapGreedyAux wordW spaceW maxW ws [w] (wordW w)

def wrapWords (wordW : String → ℚ) (spaceW maxW : ℚ) :
    List String → List (List String)
  | [] => []
  | w :: ws => wrapGreedyAux wordW spaceW maxW ws [w] (wordW w)

theorem lineW_append (wordW : String → ℚ) (spaceW : ℚ) :
    ∀ (l : List String) (w : String), l ≠ [] →
      lineW wordW spaceW (l ++ [w]) = lineW wordW spaceW l + spaceW + wordW w
  | [], _, hne => absurd rfl hne
  | [x], w, _ => rfl
  | x :: y :: t, w, _ => by
    have ih := lineW_append wordW spaceW (y :: t) w (by simp)
    show lineW wordW spaceW (x :: ((y :: t) ++ [w])) = _
    rw [lineW, lineW]
    · rw [ih]; ring
    · simp
    · simp

theorem wrapGreedyAux_flatten (wordW : String → ℚ) (spaceW maxW : ℚ) :
    ∀ (ws line : List String) (curW : ℚ),
      (wrapGreedyAux wordW spaceW maxW ws line curW).flatten =
        line.reverse ++ ws
  | [], line, curW => by simp [wrapGreedyAux]
  | w :: ws, line, curW => by
    unfold wrapGreedyAux
    split
    · rw [wrapGreedyAux_flatten wordW spaceW maxW ws (w :: line)]
      simp
    · rw [List.flatten_cons, wrapGreedyAux_flatten wordW spaceW maxW ws [w]]
      simp

theorem wrapWords_flatten (wordW : String → ℚ) (spaceW maxW : ℚ)
    (ws : List String) :
    (wrapWords wordW spaceW maxW ws).flatten = ws := by
  cases ws with
  | nil => rfl
  | cons w ws =>
    unfold wrapWords
    rw [wrapGreedyAux_flatten]
    rfl

theorem wrapGreedyAux_le (wordW : String → ℚ) (spaceW maxW : ℚ) :
    ∀ (ws line : List String) (curW : ℚ),
      (∀ w ∈ ws, wordW w ≤ maxW) → line ≠ [] →
      curW = lineW wordW spaceW line.reverse → curW ≤ maxW →
      ∀ l ∈ wrapGreedyAux wordW spaceW maxW ws line curW,
        lineW wordW spaceW l ≤ maxW
  | [], line, curW, _, _, hcur, hle, l, hl => by
    simp only [wrapGreedyAux, List.mem_singleton] at hl
    subst hl
    rw [← hcur]
    exact hle
  | w :: ws, line, curW, hws, hne, hcur, hle, l, hl => by
    rw [wrapGreedyAux] at hl
    split at hl
    · next hfit =>
      refine wrapGreedyAux_le wordW spaceW maxW ws (w :: line) _ ?_ (by simp) ?_ hfit l hl
      · exact fun x hx => hws x (List.mem_cons_of_mem w hx)
      · rw [List.reverse_cons, lineW_append wordW spaceW line.reverse w
          (by simpa using hne), ← hcur]
    · next hnofit =>
      rcases List.mem_cons.mp hl with rfl | hl
      · rw [← hcur]; exact hle
      · refine wrapGreedyAux_le wordW spaceW maxW ws [w] _ ?_ (by simp) rfl
          (hws w (List.mem_cons_self w ws)) l hl
        exact fun x hx => hws x (List.mem_cons_of_mem w hx)

theorem wrapWords_le (wordW : String → ℚ) (spaceW maxW : ℚ)
    (ws : List String) (hws : ∀ w ∈ ws, wordW w ≤ maxW) :
    ∀ l ∈ wrapWords wordW spaceW maxW ws, lineW wordW spaceW l ≤ maxW := by
  cases ws with
  | nil => intro l hl; simp [wrapWords] at hl
  | cons w ws =>
    intro l hl
    refine wrapGreedyAux_le wordW spaceW maxW ws [w] _ ?_ (by simp) rfl
      (hws w (List.mem_cons_self w ws)) l hl
    exact fun x hx => hws x (List.mem_cons_of_mem w hx)

/-- C4 counterexample: with a single word of rendered width 10 and
maximum wrap width 5, word wrap — which by the spec's own contract breaks
only at whitespace, never inside a word — must emit that word as a line
of width 10 > 5, so the claim's unconditional per-line width bound is
unsatisfiable for inputs containing a word wider than the wrap width. -/
theorem C4_counterexample :
    wrapWords (fun _ => (10:ℚ)) 1 5 (jsWords "overlong") = [["overlong"]] ∧
    ¬lineW (fun _ => (10:ℚ)) 1 ["overlong"] ≤ 5 := by
  constructor
  · rfl
  · norm_num [lineW]

/-- C4 amended (spec-modelled wrap): for every word-width assignment,
space width and maximum width, greedy word wrap of the
whitespace-normalized input loses no content and breaks only at
whitespace — the concatenation of the produced lines is exactly the word
sequence of the input — and, PROVIDED every single word fits within the
maximum width, every produced line's rendered width is at most that
width; an overlong word sits alone on a line, unbroken. -/
theorem C4_wrap_spec (wordW : String → ℚ) (spaceW maxW : ℚ) (txt : String)
    (hws : ∀ w ∈ jsWords txt, wordW w ≤ maxW) :
    (wrapWords wordW spaceW maxW (jsWords txt)).flatten = jsWords txt ∧
    ∀ l ∈ wrapWords wordW spaceW maxW (jsWords txt),
      lineW wordW spaceW l ≤ maxW :=
  ⟨wrapWords_flatten wordW spaceW maxW (jsWords txt),
   wrapWords_le wordW spaceW maxW (jsWords txt) hws⟩

/-- Witness for the amended C4: the text "ab cd ef" with every word of
rendered width 2, space width 1 and maximum width 5 — all words fit, so
the wrap reproduces the words and every line is within the width. -/
theorem C4_wrap_spec_witness :
    (wrapWords (fun _ => (2:ℚ)) 1 5 (jsWords "ab cd ef")).flatten =
      jsWords "ab cd ef" ∧
    ∀ l ∈ wrapWords (fun _ => (2:ℚ)) 1 5 (jsWords "ab cd ef"),
      lineW (fun _ => (2:ℚ)) 1 l ≤ 5 :=
  C4_wrap_spec (fun _ => (2:ℚ)) 1 5 "ab cd ef" (by decide)

/-- Modelled from the spec's words for C5: "if the string already has a
recognized scheme (http://, https://, mailto:, tel:) leave unchanged;
otherwise prefix https://" — the scheme test read as the four literal
prefixes. -/
def specClaimNormalizeUrl (u : String) : String :=
  if strStartsWith u "http://" || strStartsWith u "https://" ||
     strStartsWith u "mailto:" || strStartsWith u "tel:" then u
  else "https://" ++ u

/-- C5 counterexample: the engine leaves "HTTP://x.com" unchanged — its
http/https test is case-insensitive — while the claim as stated puts
"HTTP://x.com" in the "every other case" bucket and demands the prefixed
"https://HTTP://x.com". -/
theorem C5_counterexample :
    drawLinkUrl "HTTP://x.com" = "HTTP://x.com" ∧
    specClaimNormalizeUrl "HTTP://x.com" = "https://HTTP://x.com" ∧
    drawLinkUrl "HTTP://x.com" ≠ specClaimNormalizeUrl "HTTP://x.com" := by
  decide

/-- C5 amended: the activation URL equals the input unchanged when the
input starts with the exact lowercase "mailto:" or "tel:", or with
"http://" or "https://" in any ASCII letter case; every other nonempty
input is prefixed with "https://" (and an empty input stays empty). -/
theorem C5_url_normalization (u : String) :
    (strStartsWith u "mailto:" = true ∨ strStartsWith u "tel:" = true ∨
      strStartsWith (asciiLower u) "http://" = true ∨
      strStartsWith (asciiLower u) "https://" = true →
      drawLinkUrl u = u) ∧
    (u ≠ "" →
      strStartsWith u "mailto:" = false → strStartsWith u "tel:" = false →
      strStartsWith (asciiLower u) "http://" = false →
      strStartsWith (asciiLower u) "https://" = false →
      drawLinkUrl u = "https://" ++ u) := by
  constructor
  · intro hrec
    unfold drawLinkUrl
    by_cases hmt : (strStartsWith u "mailto:" || strStartsWith u "tel:") = true
    · rw [if_pos hmt]
    · rw [if_neg hmt]
      simp only [Bool.or_eq_true, not_or, Bool.not_eq_true] at hmt
      have hne : u ≠ "" := by
        intro he
        subst he
        rcases hrec with hx | hx | hx | hx <;> simp [strStartsWith, asciiLower] at hx
      unfold normalizeUrl
      rw [if_neg hne]
      rcases hrec with hx | hx | hx | hx
      · rw [hmt.1] at hx; exact absurd hx (by simp)
      · rw [hmt.2] at hx; exact absurd hx (by simp)
      · rw [if_pos (by rw [hx]; rfl)]
      · rw [if_pos (by rw [hx]; simp)]
  · intro hne hm ht hh hhs
    unfold drawLinkUrl
    rw [if_neg (by rw [hm, ht]; simp)]
    unfold normalizeUrl
    rw [if_neg hne, if_neg (by rw [hh, hhs]; simp)]

/-- Witness for the amended C5: a mailto URL passes through unchanged and
a bare domain gets the https prefix. -/
theorem C5_url_normalization_witness :
    drawLinkUrl "mailto:a@b.c" = "mailto:a@b.c" ∧
    drawLinkUrl "example.com" = "https://" ++ "example.com" :=
  ⟨(C5_url_normalization "mailto:a@b.c").1 (Or.inl (by decide)),
   (C5_url_normalization "example.com").2 (by decide) (by decide) (by decide)
     (by decide) (by decide)⟩

/-- C6: every section renderer invoked with an empty or absent data slice
emits nothing and leaves the cursor unchanged — in particular the
Projects section with zero projects returns the state untouched: no
header, no gap, identical cursor position before and after. -/
theorem C6_empty_sections_skip (h : Host) (pd : PersonalDetails) (st : St) :
    summarySection h { pd with summary := "" } st = st ∧
    experienceSection h [] st = st ∧
    educationSection h [] st = st ∧
    skillsSection h [] st = st ∧
    projectsSection h [] st = st ∧
    additionalSection h [] [] st = st := by
  refine ⟨?_, ?_, ?_, ?_, ?_, ?_⟩
  · simp [summarySection]
  · simp [experienceSection]
  · simp [educationSection]
  · simp [skillsSection]
  · simp [projectsSection]
  · simp [additionalSection]

theorem photoStep_fail (h : Host) (pd : PersonalDetails) (st : St)
    (hfail : imageUrlToDataUrl h pd.photoUrl = Except.error ()) :
    photoStep h pd st = st := by
  unfold photoStep
  split
  · rw [hfail]
  · rfl

theorem photoStep_blank (h : Host) (pd : PersonalDetails) (st : St)
    (hblank : pd.photoUrl = "") : photoStep h pd st = st := by
  unfold photoStep
  rw [if_neg (by simp [hblank])]

theorem headerBlock_photoFail (h : Host) (pd : PersonalDetails) (st : St)
    (hfail : imageUrlToDataUrl h pd.photoUrl = Except.error ()) :
    headerBlock h pd st = headerBlock h { pd with photoUrl := "" } st := by
  unfold headerBlock
  rw [photoStep_fail h pd _ hfail, photoStep_blank h _ _ rfl]
  rfl

/-- C7: when fetching or decoding the photo fails, the failure is caught
locally — the run is identical to a run with no photo requested at all —
and generation still completes, ending with the save of the document
under the computed filename. -/
theorem C7_photo_failure_recovered (h : Host) (rd : ResumeData)
    (hfail : h.fetchImage rd.personalDetails.photoUrl = Except.error ()) :
    generatePDF h rd = generatePDF h
      { rd with personalDetails := { rd.personalDetails with photoUrl := "" } } ∧
    (generatePDF h rd).evs.getLast? = some (Ev.save (fileNameOf rd)) := by
  constructor
  · simp only [generatePDF]
    rw [headerBlock_photoFail h rd.personalDetails _ hfail]
    rfl
  · unfold generatePDF
    exact List.getLast?_concat _

/-- Host whose photo fetch always fails; the other capabilities are the
simplest deterministic ones. -/
def failHost : Host where
  split := fun _ _ t _ => [t]
  width := fun _ _ _ => 0
  nfkc := id
  lower := asciiLower
  fmtDate := id
  fetchImage := fun _ => Except.error ()

def adaPd : PersonalDetails :=
  ⟨"Ada", "Lovelace", "", "", "", "", "", "", "", "http://p"⟩

def adaRd : ResumeData := ⟨adaPd, [], [], [], [], [], [], none⟩

/-- Witness for C7: Ada's resume with photo URL "http://p" and a failing
fetch generates exactly the photo-less document and saves it. -/
theorem C7_photo_failure_recovered_witness :
    generatePDF failHost adaRd = generatePDF failHost
      { adaRd with personalDetails :=
        { adaRd.personalDetails with photoUrl := "" } } ∧
    (generatePDF failHost adaRd).evs.getLast? =
      some (Ev.save (fileNameOf adaRd)) :=
  C7_photo_failure_recovered failHost adaRd rfl

/-- C9: generatePDF always ends by saving under `fileNameOf`; a nonempty
caller-supplied filename is used as-is, and with no override the file is
saved under the (placeholder-defaulted) full name with every whitespace
run replaced by an underscore, followed by "_Resume.pdf". -/
theorem C9_filename (h : Host) (rd : ResumeData) :
    (generatePDF h rd).evs.getLast? = some (Ev.save (fileNameOf rd)) ∧
    (∀ f, rd.filename = some f → f ≠ "" → fileNameOf rd = f) ∧
    (rd.filename = none →
      fileNameOf rd =
        replaceWsRuns "_"
          (if jsTrim (rd.personalDetails.firstName ++ " " ++
              rd.personalDetails.lastName) = ""
           then "Your_Name"
           else jsTrim (rd.personalDetails.firstName ++ " " ++
              rd.personalDetails.lastName)) ++ "_Resume.pdf") := by
  refine ⟨?_, ?_, ?_⟩
  · unfold generatePDF
    exact List.getLast?_concat _
  · intro f hf hne
    simp [fileNameOf, hf, hne]
  · intro hf
    simp [fileNameOf, hf, defaultFileName, fileFullNameOf]

/-- Witness for C9: first name "Ada", last name "Lovelace" and no
override saves as "Ada_Lovelace_Resume.pdf"; an override "cv.pdf" is used
unchanged. -/
theorem C9_filename_witness :
    (fileNameOf adaRd =
      replaceWsRuns "_"
        (if jsTrim ("Ada" ++ " " ++ "Lovelace") = "" then "Your_Name"
         else jsTrim ("Ada" ++ " " ++ "Lovelace")) ++ "_Resume.pdf") ∧
    fileNameOf adaRd = "Ada_Lovelace_Resume.pdf" ∧
    fileNameOf { adaRd with filename := some "cv.pdf" } = "cv.pdf" :=
  ⟨(C9_filename failHost adaRd).2.2 rfl, by decide,
   (C9_filename failHost { adaRd with filename := some "cv.pdf" }).2.1
     "cv.pdf" rfl (by decide)⟩

/-! ### Certificates cap (claim C8)

Within the ADDITIONAL section, bold body-size text events are exactly the
certificate name lines (the sub-headings are subheading-size, the section
title is title-size, and every other line is normal weight), so the
rendered certificate entries can be read off the trace. -/

def certNameProj : Ev → Option String
  | Ev.text s _ _ size bold _ =>
    if bold = true ∧ size = BODY_SIZE then some s else none
  | _ => none

theorem sub_ne_body : (SUBHEADING_SIZE : ℚ) ≠ BODY_SIZE := by
  norm_num [SUBHEADING_SIZE, BODY_SIZE]

theorem sect_ne_body : (SECTION_TITLE_SIZE : ℚ) ≠ BODY_SIZE := by
  norm_num [SECTION_TITLE_SIZE, BODY_SIZE]

theorem certBlock_certProj (h : Host) (st : St) (c : CertificateItem) :
    (certBlock h st c).evs.filterMap certNameProj =
      st.evs.filterMap certNameProj ++ [certDisplayName c] := by
  unfold certBlock needSpace
  dsimp only
  split_ifs <;> simp [emit, List.filterMap_append, certNameProj]

theorem certFold_certProj (h : Host) :
    ∀ (certs : List CertificateItem) (st : St),
      ((certs.foldl (certBlock h) st).evs.filterMap certNameProj) =
        st.evs.filterMap certNameProj ++ certs.map certDisplayName
  | [], st => by simp
  | c :: certs, st => by
    rw [List.foldl_cons, certFold_certProj h certs, certBlock_certProj]
    simp

theorem langLine_certProj (st : St) (lang : LanguageItem) :
    (langLine st lang).evs.filterMap certNameProj =
      st.evs.filterMap certNameProj := by
  unfold langLine needSpace
  dsimp only
  split_ifs <;> simp [emit, List.filterMap_append, certNameProj]

theorem langFold_certProj :
    ∀ (langs : List LanguageItem) (st : St),
      ((langs.foldl langLine st).evs.filterMap certNameProj) =
        st.evs.filterMap certNameProj
  | [], _ => rfl
  | l :: langs, st => by
    rw [List.foldl_cons, langFold_certProj langs, langLine_certProj]

theorem languagesSub_certProj (langs : List LanguageItem) (st : St) :
    (languagesSub langs st).evs.filterMap certNameProj =
      st.evs.filterMap certNameProj := by
  unfold languagesSub
  split
  · show ((langs.foldl langLine _).evs.filterMap certNameProj) = _
    rw [langFold_certProj]
    unfold needSpace
    dsimp only
    split_ifs <;> simp [emit, List.filterMap_append, certNameProj, sub_ne_body]
  · rfl

theorem certificatesSub_certProj (h : Host) (certs : List CertificateItem)
    (st : St) :
    (certificatesSub h certs st).evs.filterMap certNameProj =
      st.evs.filterMap certNameProj ++ (certs.take 10).map certDisplayName := by
  unfold certificatesSub
  split
  · rw [certFold_certProj]
    have : ∀ st2 : St, ((needSpace st2 (lineHeightMM SUBHEADING_SIZE)).evs ++
        [Ev.text "Certifications" MARGIN
          (needSpace st2 (lineHeightMM SUBHEADING_SIZE)).y SUBHEADING_SIZE true
          Align.left]).filterMap certNameProj =
        st2.evs.filterMap certNameProj := by
      intro st2
      unfold needSpace
      split_ifs <;> simp [List.filterMap_append, certNameProj, sub_ne_body]
    rw [emit_evs, this st]
  · next hc =>
    have hcert : certs = [] := by
      by_contra hne
      exact hc hne
    subst hcert
    simp

theorem sectionHeader_certProj (title : String) (st : St) :
    (sectionHeader title st).evs.filterMap certNameProj =
      st.evs.filterMap certNameProj := by
  unfold sectionHeader needSpace
  dsimp only
  split_ifs <;> simp [emit, List.filterMap_append, certNameProj, sect_ne_body]

theorem addTopSpacing_certProj (st : St) (g : ℚ) :
    (addTopSpacing st g).evs.filterMap certNameProj =
      st.evs.filterMap certNameProj := by
  unfold addTopSpacing needSpace
  dsimp only
  split_ifs <;> simp [List.filterMap_append, certNameProj]

/-- C8: the rendered Certifications sub-section contains exactly
`min(length, 10)` entries — the first ten certificates in input order
(with the "Certificate" placeholder for a blank name) — and nothing past
the tenth is ever rendered. -/
theorem C8_certificates_capped (h : Host) (langs : List LanguageItem)
    (certs : List CertificateItem) (y0 : ℚ) :
    (additionalSection h langs certs ⟨y0, []⟩).evs.filterMap certNameProj =
      (certs.take 10).map certDisplayName ∧
    ((additionalSection h langs certs ⟨y0, []⟩).evs.filterMap
        certNameProj).length = min certs.length 10 := by
  have hmain : (additionalSection h langs certs ⟨y0, []⟩).evs.filterMap
      certNameProj = (certs.take 10).map certDisplayName := by
    unfold additionalSection
    split
    · rw [certificatesSub_certProj, languagesSub_certProj,
        sectionHeader_certProj, addTopSpacing_certProj]
      rfl
    · next hc =>
      push_neg at hc
      obtain ⟨-, h2⟩ := hc
      subst h2
      rfl
  refine ⟨hmain, ?_⟩
  rw [hmain, List.length_map, List.length_take, Nat.min_comm]

/-! ### Phone link in the header (claim C10) -/

def linkProj : Ev → Option (String × String)
  | Ev.link s _ _ url => some (s, url)
  | _ => none

theorem mem_filterMap_append {α β : Type} {p : α → Option β} {a : β}
    {l t : List α} (h : a ∈ l.filterMap p) : a ∈ (l ++ t).filterMap p := by
  rw [List.filterMap_append]
  exact List.mem_append_left _ h

theorem needSpace_extends (st : St) (r : ℚ) :
    ∃ t, (needSpace st r).evs = st.evs ++ t := by
  unfold needSpace
  split
  · exact ⟨_, rfl⟩
  · exact ⟨[], by simp⟩

theorem inlineItemDraw_extends (h : Host) (fs : ℚ) (st : St) (x : ℚ)
    (it : InlineItem) :
    ∃ t, (inlineItemDraw h fs st x it).evs = st.evs ++ t := by
  unfold inlineItemDraw
  match it.url with
  | some u =>
    dsimp only
    split
    · exact ⟨_, rfl⟩
    · exact ⟨_, rfl⟩
  | none => exact ⟨_, rfl⟩

theorem inlineLoop_extends (h : Host) (fs : ℚ) :
    ∀ (items : List InlineItem) (x : ℚ) (st : St),
      ∃ t, (inlineLoop h fs items x st).evs = st.evs ++ t
  | [], _, st => ⟨[], by simp [inlineLoop]⟩
  | [it], x, st => by
    simp only [inlineLoop]
    exact inlineItemDraw_extends h fs st x it
  | it :: it2 :: rest, x, st => by
    simp only [inlineLoop]
    obtain ⟨t1, ht1⟩ := inlineItemDraw_extends h fs st x it
    obtain ⟨t3, ht3⟩ := inlineLoop_extends h fs (it2 :: rest)
      (x + h.width fs false it.label + h.width fs false inlineSep)
      (emit (inlineItemDraw h fs st x it)
        (Ev.text inlineSep (x + h.width fs false it.label)
          (inlineItemDraw h fs st x it).y fs false Align.left))
    refine ⟨t1 ++ [Ev.text inlineSep (x + h.width fs false it.label)
      (inlineItemDraw h fs st x it).y fs false Align.left] ++ t3, ?_⟩
    rw [ht3, emit_evs, ht1]
    simp

theorem photoStep_extends (h : Host) (pd : PersonalDetails) (st : St) :
    ∃ t, (photoStep h pd st).evs = st.evs ++ t := by
  unfold photoStep
  dsimp only
  split
  · cases imageUrlToDataUrl h pd.photoUrl with
    | ok d => exact ⟨_, rfl⟩
    | error e => exact ⟨[], by simp⟩
  · exact ⟨[], by simp⟩

theorem linksStep_extends (h : Host) (pd : PersonalDetails) (st : St) :
    ∃ t, (linksStep h pd st).evs = st.evs ++ t := by
  unfold linksStep
  dsimp only
  split
  · dsimp only
    obtain ⟨t0, ht0⟩ := needSpace_extends st (lineHeightMM META_SIZE)
    obtain ⟨t1, ht1⟩ := inlineLoop_extends h META_SIZE (linkItems pd)
      ((PAGE_W - inlineTotalW h META_SIZE (linkItems pd)) / 2)
      (needSpace st (lineHeightMM META_SIZE))
    exact ⟨t0 ++ t1, by
      show (drawInlineCentered h (linkItems pd) META_SIZE
        (needSpace st (lineHeightMM META_SIZE))).evs = _
      unfold drawInlineCentered
      rw [ht1, ht0]
      simp⟩
  · exact ⟨[], by simp⟩

theorem inlineItemDraw_link_mem (h : Host) (fs : ℚ) (st : St) (x : ℚ)
    (it : InlineItem) (u : String) (hu : it.url = some u) (hne : u ≠ "") :
    (it.label, drawLinkUrl u) ∈
      (inlineItemDraw h fs st x it).evs.filterMap linkProj := by
  unfold inlineItemDraw
  rw [hu]
  dsimp only
  rw [if_pos hne]
  unfold drawLink
  simp [emit, List.filterMap_append, linkProj]

theorem inlineLoop_link_mem (h : Host) (fs : ℚ) :
    ∀ (items : List InlineItem) (x : ℚ) (st : St) (it : InlineItem)
      (u : String), it ∈ items → it.url = some u → u ≠ "" →
      (it.label, drawLinkUrl u) ∈
        (inlineLoop h fs items x st).evs.filterMap linkProj
  | [], _, _, _, _, hmem, _, _ => absurd hmem (List.not_mem_nil _)
  | [it0], x, st, it, u, hmem, hu, hne => by
    rw [List.mem_singleton] at hmem
    subst hmem
    simp only [inlineLoop]
    exact inlineItemDraw_link_mem h fs st x it u hu hne
  | it0 :: it1 :: rest, x, st, it, u, hmem, hu, hne => by
    simp only [inlineLoop]
    rcases List.mem_cons.mp hmem with rfl | hmem2
    · obtain ⟨t3, ht3⟩ := inlineLoop_extends h fs (it1 :: rest)
        (x + h.width fs false it.label + h.width fs false inlineSep)
        (emit (inlineItemDraw h fs st x it)
          (Ev.text inlineSep (x + h.width fs false it.label)
            (inlineItemDraw h fs st x it).y fs false Align.left))
      rw [ht3, emit_evs]
      rw [List.append_assoc]
      exact mem_filterMap_append (inlineItemDraw_link_mem h fs st x it u hu hne)
    · exact inlineLoop_link_mem h fs (it1 :: rest) _ _ it u hmem2 hu hne

theorem tel_url_id (x : String) :
    drawLinkUrl ("tel:" ++ x) = "tel:" ++ x := by
  unfold drawLinkUrl
  rw [if_pos]
  rw [Bool.or_eq_true]
  right
  unfold strStartsWith
  rw [String.data_append, List.isPrefixOf_iff_prefix]
  exact List.prefix_append _ _

theorem tel_url_ne_empty (x : String) : "tel:" ++ x ≠ "" := by
  intro he
  have h1 : ("tel:" ++ x).data = ("" : String).data := by rw [he]
  rw [String.data_append] at h1
  have h2 : ("tel:" ++ x).data.length = ("" : String).data.length := by rw [he]
  rw [String.data_append, List.length_append] at h2
  have h3 : ("tel:" : String).data.length = 4 := by decide
  have h4 : ("" : String).data.length = 0 := by decide
  omega

theorem contactsStep_phone_mem (h : Host) (pd : PersonalDetails) (st : St)
    (hphone : pd.phone ≠ "") :
    (pd.phone, "tel:" ++ stripWs pd.phone) ∈
      (contactsStep h pd st).evs.filterMap linkProj := by
  have hmem : (⟨pd.phone, some ("tel:" ++ stripWs pd.phone)⟩ : InlineItem) ∈
      contactItems pd := by
    unfold contactItems
    refine List.mem_append_left _ (List.mem_append_right _ ?_)
    rw [if_pos hphone]
    exact List.mem_singleton.mpr rfl
  have hnonempty : contactItems pd ≠ [] := List.ne_nil_of_mem hmem
  unfold contactsStep
  rw [if_pos hnonempty]
  dsimp only
  show (_, _) ∈ (drawInlineCentered h (contactItems pd) META_SIZE
      (needSpace st (lineHeightMM META_SIZE))).evs.filterMap linkProj
  unfold drawInlineCentered
  have := inlineLoop_link_mem h META_SIZE (contactItems pd)
    ((PAGE_W - inlineTotalW h META_SIZE (contactItems pd)) / 2)
    (needSpace st (lineHeightMM META_SIZE))
    ⟨pd.phone, some ("tel:" ++ stripWs pd.phone)⟩
    ("tel:" ++ stripWs pd.phone) hmem rfl (tel_url_ne_empty _)
  rw [tel_url_id] at this
  exact this

/-- C10: for every input with a non-empty phone, the header's contact
line carries a clickable region whose visible label is the phone string
exactly as supplied and whose activation URL is "tel:" followed by the
phone with every whitespace character removed. -/
theorem C10_phone_tel_link (h : Host) (pd : PersonalDetails) (y0 : ℚ)
    (hphone : pd.phone ≠ "") :
    (pd.phone, "tel:" ++ stripWs pd.phone) ∈
      (headerBlock h pd ⟨y0, []⟩).evs.filterMap linkProj := by
  unfold headerBlock
  obtain ⟨t2, ht2⟩ := photoStep_extends h pd
    (linksStep h pd (contactsStep h pd (nameStep pd ⟨y0, []⟩)))
  obtain ⟨t1, ht1⟩ := linksStep_extends h pd
    (contactsStep h pd (nameStep pd ⟨y0, []⟩))
  rw [ht2, ht1, List.append_assoc]
  exact mem_filterMap_append
    (contactsStep_phone_mem h pd (nameStep pd ⟨y0, []⟩) hphone)

def phonePd : PersonalDetails :=
  ⟨"Ada", "L", "", "+44 123", "", "", "", "", "", ""⟩

/-- Witness for C10: with phone "+44 123" the header contains a link
whose label is "+44 123" verbatim and whose URL is "tel:+44123". -/
theorem C10_phone_tel_link_witness :
    (phonePd.phone, "tel:" ++ stripWs phonePd.phone) ∈
      (headerBlock failHost phonePd ⟨MARGIN, []⟩).evs.filterMap linkProj :=
  C10_phone_tel_link failHost phonePd MARGIN (by decide)

end ResumeCraft
